import Mathlib

/-!
Verification of the settings-merging engine and validation gate of
`cmake_converter/data_converter.py` (class `DataConverter`).

The Python data structures are shallowly embedded:

* Python `dict` / `OrderedDict` (both preserve insertion order) become `Dict α β`,
  an association list with unique keys, with `Dict.insert` replacing the value in
  place when the key is present and appending otherwise — exactly the Python
  assignment `d[k] = v`.
* A `SettingsRecord` models one entry of `context.settings`: the `target_type`
  field plus the mapping from setting names to string-list values.
* Fallible dictionary subscripts (Python `d[k]`, which raises `KeyError` when the
  key is absent) are translated with `Option`: a function that can hit a missing
  key returns `none` there.
* The diagnostics sink `message` and the hooks `utils.lists_of_settings_to_merge`
  and `utils.init_context_current_setting` live outside this file's source
  (in `utils.py`); they are modelled from the spec, see their doc comments.

All definitions are executable, so concrete scenarios evaluate by `decide`/`rfl`.
-/

set_option maxHeartbeats 1000000

/-- A Python dictionary with insertion order: an association list. Insertion
order is significant, mirroring Python 3.7+ `dict` and `collections.OrderedDict`. -/
abbrev Dict (α β : Type) : Type := List (α × β)

namespace Dict

variable {α β : Type} [DecidableEq α]

/-- Python `d[k]` as a total lookup: the value at the first occurrence of `k`. -/
def find? : Dict α β → α → Option β
  | [], _ => none
  | (k', v) :: d, k => if k' = k then some v else find? d k

/-- Python `k in d`. -/
def contains (d : Dict α β) (k : α) : Bool :=
  (find? d k).isSome

/-- Replace the value stored at the first occurrence of key `k`. -/
def replace : Dict α β → α → β → Dict α β
  | [], _, _ => []
  | (k', v') :: d, k, v => if k' = k then (k, v) :: d else (k', v') :: replace d k v

/-- Python `d[k] = v`: replace in place when the key is present, append otherwise. -/
def insert (d : Dict α β) (k : α) (v : β) : Dict α β :=
  if contains d k then replace d k v else d ++ [(k, v)]

/-- The keys of the dictionary, in insertion order. -/
def keysOf (d : Dict α β) : List α :=
  d.map Prod.fst

/-- Well-formedness: keys occur at most once (always true of a real Python dict). -/
def WF (d : Dict α β) : Prop :=
  (d.map Prod.fst).Nodup

@[simp] theorem find?_nil (k : α) : find? ([] : Dict α β) k = none := rfl

@[simp] theorem find?_cons (k' k : α) (v : β) (d : Dict α β) :
    find? ((k', v) :: d) k = if k' = k then some v else find? d k := rfl

@[simp] theorem contains_nil (k : α) : contains ([] : Dict α β) k = false := rfl

theorem contains_iff (d : Dict α β) (k : α) :
    contains d k = true ↔ ∃ v, find? d k = some v := by
  simp [contains, Option.isSome_iff_exists]

theorem contains_eq_false_iff (d : Dict α β) (k : α) :
    contains d k = false ↔ find? d k = none := by
  cases h : find? d k <;> simp [contains, h]

theorem find?_append (d₁ d₂ : Dict α β) (k : α) :
    find? (d₁ ++ d₂) k = (find? d₁ k).orElse (fun _ => find? d₂ k) := by
  induction d₁ with
  | nil => simp
  | cons p d ih =>
    obtain ⟨k', v⟩ := p
    by_cases h : k' = k <;> simp [h, ih]

theorem find?_replace_self (d : Dict α β) (k : α) (v : β) (h : contains d k = true) :
    find? (replace d k v) k = some v := by
  induction d with
  | nil => simp [contains, find?] at h
  | cons p d ih =>
    obtain ⟨k', v'⟩ := p
    by_cases hk : k' = k
    · simp [replace, hk]
    · simp [contains, find?, hk] at h
      simp [replace, hk, ih (by simp [contains, h])]

theorem find?_replace_ne (d : Dict α β) (k k' : α) (v : β) (h : k' ≠ k) :
    find? (replace d k v) k' = find? d k' := by
  induction d with
  | nil => simp [replace]
  | cons p d ih =>
    obtain ⟨k'', v'⟩ := p
    by_cases hk : k'' = k
    · subst hk
      simp [replace, Ne.symm h]
    · simp only [replace, if_neg hk, find?_cons]
      by_cases hk' : k'' = k' <;> simp [hk', ih]

theorem find?_insert_self (d : Dict α β) (k : α) (v : β) :
    find? (insert d k v) k = some v := by
  unfold insert
  by_cases h : contains d k = true
  · simp [h, find?_replace_self d k v h]
  · have h' : contains d k = false := by simpa using h
    simp [h', find?_append, (contains_eq_false_iff d k).mp h']

theorem find?_insert_ne (d : Dict α β) (k k' : α) (v : β) (h : k' ≠ k) :
    find? (insert d k v) k' = find? d k' := by
  unfold insert
  by_cases hc : contains d k
  · simp [hc, find?_replace_ne d k k' v h]
  · simp only [hc, Bool.false_eq_true, if_false, find?_append]
    cases hfk : find? d k' with
    | some w => simp
    | none => simp [Ne.symm h]

theorem contains_insert_self (d : Dict α β) (k : α) (v : β) :
    contains (insert d k v) k = true := by
  simp [contains, find?_insert_self]

theorem contains_insert_ne (d : Dict α β) (k k' : α) (v : β) (h : k' ≠ k) :
    contains (insert d k v) k' = contains d k' := by
  simp [contains, find?_insert_ne d k k' v h]

theorem keys_replace (d : Dict α β) (k : α) (v : β) (h : contains d k = true) :
    (replace d k v).map Prod.fst = d.map Prod.fst := by
  induction d with
  | nil => simp [contains, find?] at h
  | cons p d ih =>
    obtain ⟨k', v'⟩ := p
    by_cases hk : k' = k
    · simp [replace, hk]
    · simp [contains, find?, hk] at h
      simp [replace, hk, ih (by simp [contains, h])]

theorem find?_eq_none_of_not_mem_keys (d : Dict α β) (k : α)
    (h : k ∉ d.map Prod.fst) : find? d k = none := by
  induction d with
  | nil => rfl
  | cons p d ih =>
    obtain ⟨k', v'⟩ := p
    simp only [List.map_cons, List.mem_cons] at h
    push_neg at h
    simp [find?, Ne.symm h.1, ih h.2]

theorem mem_keys_of_contains (d : Dict α β) (k : α) (h : contains d k = true) :
    k ∈ d.map Prod.fst := by
  by_contra hmem
  rw [contains, find?_eq_none_of_not_mem_keys d k hmem] at h
  simp at h

theorem contains_of_mem_keys (d : Dict α β) (k : α) (h : k ∈ d.map Prod.fst) :
    contains d k = true := by
  induction d with
  | nil => simp at h
  | cons p d ih =>
    obtain ⟨k', v'⟩ := p
    by_cases hk : k' = k
    · simp [contains, find?, hk]
    · simp only [List.map_cons, List.mem_cons] at h
      rcases h with h | h
      · exact absurd h.symm hk
      · have := ih h
        simpa [contains, find?, hk] using this

theorem WF_insert (d : Dict α β) (k : α) (v : β) (h : WF d) : WF (insert d k v) := by
  unfold insert
  by_cases hc : contains d k = true
  · rw [if_pos hc]
    unfold WF
    rw [keys_replace d k v hc]
    exact h
  · rw [if_neg hc]
    have hk : k ∉ d.map Prod.fst := fun hm => hc (contains_of_mem_keys d k hm)
    unfold WF
    rw [List.map_append]
    refine List.nodup_append.mpr ⟨h, by simp, ?_⟩
    intro x hx hx2
    simp at hx2
    subst hx2
    exact hk hx

theorem mem_of_find?_eq_some (d : Dict α β) (k : α) (v : β)
    (h : find? d k = some v) : (k, v) ∈ d := by
  induction d with
  | nil => simp [find?] at h
  | cons p d ih =>
    obtain ⟨k', v'⟩ := p
    by_cases hk : k' = k
    · subst hk
      simp [find?] at h
      simp [h]
    · simp only [find?_cons, if_neg hk] at h
      exact List.mem_cons_of_mem _ (ih h)

theorem find?_eq_some_of_mem (d : Dict α β) (k : α) (v : β) (hwf : WF d)
    (h : (k, v) ∈ d) : find? d k = some v := by
  induction d with
  | nil => simp at h
  | cons p d ih =>
    obtain ⟨k', v'⟩ := p
    have hwf' : WF d := (List.nodup_cons.mp hwf).2
    have hhead : k' ∉ d.map Prod.fst := (List.nodup_cons.mp hwf).1
    rcases List.mem_cons.mp h with h | h
    · have h1 : k = k' := congrArg Prod.fst h
      have h2 : v = v' := congrArg Prod.snd h
      subst h1
      subst h2
      simp [find?]
    · by_cases hk : k' = k
      · subst hk
        exact absurd (List.mem_map_of_mem Prod.fst h) hhead
      · simp [find?, hk, ih hwf' h]

theorem contains_append_right (d₁ d₂ : Dict α β) (k : α) (h : contains d₂ k = true) :
    contains (d₁ ++ d₂) k = true := by
  rcases (contains_iff d₂ k).mp h with ⟨v, hv⟩
  rw [contains, find?_append]
  cases hf : find? d₁ k <;> simp [hv]

theorem mem_insert_elim (d : Dict α β) (k : α) (v : β) (e : α × β)
    (h : e ∈ insert d k v) : e ∈ d ∨ e = (k, v) := by
  unfold insert at h
  by_cases hc : contains d k
  · simp only [hc, if_true] at h
    clear hc
    induction d with
    | nil => simp [replace] at h
    | cons p d ih =>
      obtain ⟨k', v'⟩ := p
      by_cases hk : k' = k
      · simp only [replace, if_pos hk] at h
        rcases List.mem_cons.mp h with h | h
        · right; exact h
        · left; exact List.mem_cons_of_mem _ h
      · simp only [replace, if_neg hk] at h
        rcases List.mem_cons.mp h with h | h
        · left; exact h ▸ List.mem_cons_self _ _
        · rcases ih h with h | h
          · left; exact List.mem_cons_of_mem _ h
          · right; exact h
  · simp only [hc, Bool.false_eq_true, if_false, List.mem_append] at h
    rcases h with h | h
    · left; exact h
    · right; simpa using h

end Dict

/-- A configuration key `(configuration-name-or-none, architecture-or-none)`:
a Python tuple such as `('Debug', 'x64')` or the wildcard `(None, 'x64')`. -/
abbrev ConfigKey : Type := Option String × Option String

/-- One entry of `context.settings`: the Python dictionary holding a
configuration's data. `target_type` models `settings['target_type']` (read by
`__verify_target_types`) and `lists` models the string-list valued entries
(such as the mergeable setting lists) keyed by setting name. -/
structure SettingsRecord where
  target_type : String
  lists : Dict String (List String)
deriving DecidableEq

/-- Modelled from the spec: the diagnostics sink (`message` in `utils.py`, not
part of this source file) accepts severity/text pairs; diagnostics are kept
structurally, each constructor recording the data the source interpolates into
the text. `targetTypeWarn` is the warning of `__verify_target_types`;
`absentSettingsError` is the error of `__verify_configurations_to_parse`,
naming the project path and the absent configurations. -/
inductive Diag where
  | targetTypeWarn
  | absentSettingsError (vcxproj_path : String) (absent : List ConfigKey)
deriving DecidableEq

/-- Severity of a diagnostic, as the string passed to `message` in the source. -/
def Diag.severity : Diag → String
  | .targetTypeWarn => "warn"
  | .absentSettingsError _ _ => "error"

/-- The slice of the conversion `Context` that `verify_data` and
`merge_data_settings` read and write: the settings store, the solution
configuration map, the set of configurations requested for conversion
(a Python `set`, held here as a list of its elements), the scratch
`current_setting` field, the project path, and the emitted diagnostics.
`file_contexts` is modelled as `None` (no nested per-file contexts). -/
structure Context where
  settings : Dict ConfigKey SettingsRecord
  sln_configurations_map : Dict ConfigKey ConfigKey
  configurations_to_parse : List ConfigKey
  current_setting : ConfigKey
  vcxproj_path : String
  messages : List Diag
deriving DecidableEq

/-- Modelled from the spec: the diagnostics sink appends a diagnostic to the
context's stream of emitted diagnostics. -/
def message (context : Context) (d : Diag) : Context :=
  { context with messages := context.messages ++ [d] }

/-- View of the list stored for setting `key` at configuration `c`: `none` when
the configuration has no record, `some none` when the record lacks the key. -/
def settingView (context : Context) (c : ConfigKey) (key : String) :
    Option (Option (List String)) :=
  (Dict.find? context.settings c).map (fun r => Dict.find? r.lists key)

/-- Keep the first occurrence of each element of `s` in the candidate sequence:
the loop of `__get_common_ordered_settings` without its early-exit branch. -/
def filterCommon : List String → List String → List String
  | [], _ => []
  | element :: rest, s =>
    if element ∈ s then element :: filterCommon rest (s.erase element)
    else filterCommon rest s

/-- The contributing configurations of architecture `a` for setting `key`, in
encounter order over the configuration-map entries: entries whose solution key
has architecture `a`, whose mapped key is concrete (configuration slot not
`None`) and whose mapped record holds a list for `key`; paired with that
original list. -/
def contribList (settings : Dict ConfigKey SettingsRecord) (key : String) (a : String)
    (entries : List (ConfigKey × ConfigKey)) : List (ConfigKey × List String) :=
  entries.filterMap (fun e =>
    if e.1.2 = some a ∧ e.2.1.isSome then
      match Dict.find? settings e.2 with
      | some r => (Dict.find? r.lists key).map (fun l => (e.1, l))
      | none => none
    else none)

/-- Whether a configuration-map entry contributes to the merge of `key` for any
architecture. -/
def isContributor (settings : Dict ConfigKey SettingsRecord) (key : String)
    (e : ConfigKey × ConfigKey) : Bool :=
  e.1.2.isSome && e.2.1.isSome &&
    (match Dict.find? settings e.2 with
     | some r => Dict.contains r.lists key
     | none => false)

/-- The solution configuration keys of the entries contributing to the merge of
`key`, across all architectures. -/
def contributorKeys (settings : Dict ConfigKey SettingsRecord) (key : String)
    (entries : List (ConfigKey × ConfigKey)) : List ConfigKey :=
  (entries.filter (fun e => isContributor settings key e)).map Prod.fst

/-- The running intersection that the pass computes for one architecture, as a
duplicate-free list: the first contributing list deduplicated, then filtered by
membership in each later contributing list. -/
def interOf : List (List String) → List String
  | [] => []
  | l :: ls =>
    ls.foldl (fun s l2 => s.filter (fun v => v ∈ l2)) (l.dedup.filter (fun v => v ∈ l))

namespace DataConverter

/-- Translation of `DataConverter.__verify_target_types`: collect into a set the
`target_type` of every settings entry whose key has no `None` component, and
emit a warning when more than one distinct type was found. The Python `set` is
modelled by deduplicating the collected list (only its size is used). -/
def verify_target_types (context : Context) : Context :=
  let target_types :=
    (((context.settings.filter
        (fun p => !(p.1.1 = none ∨ p.1.2 = none : Bool))).map
        (fun p => p.2.target_type)).dedup)
  if 1 < target_types.length then
    message context .targetTypeWarn
  else
    context

/-- Translation of `DataConverter.__verify_configurations_to_parse`: compute the
requested configurations absent from the settings store; if any exist, remove
them from the requested set, emit the error diagnostic and return `false`,
otherwise return `true`. -/
def verify_configurations_to_parse (context : Context) : Context × Bool :=
  let absent_settings :=
    context.configurations_to_parse.filter
      (fun s => !Dict.contains context.settings s)
  if 0 < absent_settings.length then
    (message
      { context with
        configurations_to_parse :=
          context.configurations_to_parse.filter
            (fun s => Dict.contains context.settings s) }
      (.absentSettingsError context.vcxproj_path absent_settings),
     false)
  else
    (context, true)

/-- Translation of `DataConverter.verify_data`: run the target-type check, then
return the result of the configurations-to-parse check. -/
def verify_data (context : Context) : Context × Bool :=
  verify_configurations_to_parse (verify_target_types context)

/-- The private state built by the intersection pass of `merge_data_settings`
for one mergeable key: the evolving context plus the two local dictionaries
`lists_of_items_to_merge` (per architecture, the ordered contributing
`(sln_setting, settings_list)` pairs) and `set_of_items` (per architecture, the
running intersection; a Python `set` of strings, held as a duplicate-free list —
only membership, intersection and element removal are ever applied to it). -/
structure MergePassState where
  ctx : Context
  lists_of_items_to_merge : Dict String (Dict ConfigKey (List String))
  set_of_items : Dict String (List String)
deriving DecidableEq

/-- The first guard of the intersection-pass loop body: if the mapped
architecture is not `None` and has no entry in `lists_of_items_to_merge` yet,
give it an empty ordered dictionary. -/
def ensure_arch_entry (lists : Dict String (Dict ConfigKey (List String))) :
    Option String → Dict String (Dict ConfigKey (List String))
  | some a => if Dict.contains lists a then lists else Dict.insert lists a []
  | none => lists

/-- The second guard of the intersection-pass loop body: if the wildcard key
`(None, mapped_arch)` has no settings record yet, set `current_setting` to it
and create its record through the default-initialization hook. -/
def ensure_wildcard_record (init_record : ConfigKey → SettingsRecord)
    (ctx : Context) (mapped_arch : Option String) : Context :=
  if Dict.contains ctx.settings (none, mapped_arch) then ctx
  else
    { ctx with
      current_setting := (none, mapped_arch),
      settings :=
        Dict.insert ctx.settings (none, mapped_arch)
          (init_record (none, mapped_arch)) }

/-- Translation of one iteration of the "get intersection pass" loop of
`merge_data_settings`, processing one `(sln_setting, mapped_setting)` entry of
`context.sln_configurations_map`. `init_record` is the default-initialization
hook `utils.init_context_current_setting`, modelled from the spec: given a new
wildcard ConfigKey it produces a baseline `SettingsRecord` stored for that key
(the source also records the key in `context.current_setting`). Lookups that
would raise `KeyError` in Python return `none`. -/
def intersectionStep (init_record : ConfigKey → SettingsRecord) (key : String)
    (st : MergePassState) (entry : ConfigKey × ConfigKey) : Option MergePassState :=
  let sln_setting := entry.1
  let mapped_setting := entry.2
  let mapped_arch := sln_setting.2
  let lists₁ := ensure_arch_entry st.lists_of_items_to_merge mapped_arch
  let ctx₁ := ensure_wildcard_record init_record st.ctx mapped_arch
  match Dict.find? ctx₁.settings mapped_setting with
  | none => none
  | some record =>
    match Dict.find? record.lists key with
    | none =>
        some { st with ctx := ctx₁, lists_of_items_to_merge := lists₁ }
    | some settings_list =>
      match mapped_setting.1 with
      | none =>
          some { st with ctx := ctx₁, lists_of_items_to_merge := lists₁ }
      | some _ =>
        match mapped_arch with
        | none => none
        | some a =>
          let arch_lists :=
            match Dict.find? lists₁ a with
            | some d => d
            | none => []
          let sets₁ :=
            if arch_lists.isEmpty then
              Dict.insert st.set_of_items a settings_list.dedup
            else st.set_of_items
          match Dict.find? sets₁ a with
          | none => none
          | some s =>
            some
              { ctx := ctx₁,
                lists_of_items_to_merge :=
                  Dict.insert lists₁ a (Dict.insert arch_lists sln_setting settings_list),
                set_of_items :=
                  Dict.insert sets₁ a (s.filter (fun v => v ∈ settings_list)) }

/-- Translation of `DataConverter.__update_settings_at_context`: lazily create
the entry for `sln_setting` (a deep copy of the record its mapping points to),
rebind the configuration map entry to itself, and store the new list under
`key`. -/
def update_settings_at_context (context : Context) (sln_setting : ConfigKey)
    (key : String) (settings_to_set : List String) : Option Context := do
  let ctx₁ ←
    if Dict.contains context.settings sln_setting then some context
    else do
      let mapped ← Dict.find? context.sln_configurations_map sln_setting
      let r ← Dict.find? context.settings mapped
      some { context with settings := Dict.insert context.settings sln_setting r }
  let ctx₂ :=
    { ctx₁ with
      sln_configurations_map :=
        Dict.insert ctx₁.sln_configurations_map sln_setting sln_setting }
  let r ← Dict.find? ctx₂.settings sln_setting
  some
    { ctx₂ with
      settings :=
        Dict.insert ctx₂.settings sln_setting
          { r with lists := Dict.insert r.lists key settings_to_set } }

/-- Translation of `DataConverter.__remove_common_settings_from_context`: for
every architecture and every contributing configuration, keep only the elements
not in the architecture's common set and store the result back. -/
def remove_common_settings_from_context (context : Context)
    (lists_of_items_to_merge : Dict String (Dict ConfigKey (List String)))
    (set_of_items : Dict String (List String)) (key : String) : Option Context :=
  List.foldlM
    (fun ctx (p : String × Dict ConfigKey (List String)) =>
      List.foldlM
        (fun ctx (q : ConfigKey × List String) => do
          let s ← Dict.find? set_of_items p.1
          let result_settings_list := q.2.filter (fun element => !(element ∈ s : Bool))
          update_settings_at_context ctx q.1 key result_settings_list)
        ctx p.2)
    context lists_of_items_to_merge

/-- Translation of the `while True` loop of `__get_order_of_common_settings`
for one architecture, in closed form. The loop appends, for `i = 0, 1, 2, …`,
the `i`-th element of every contributing list that still has one, and stops
once every list is exhausted: so it appends one (non-empty) round per index `i`
below the maximum list length, and the final iteration — where `out_of_bounds`
equals the number of lists — appends nothing and breaks. With no lists at all
the loop breaks on its first iteration, matching `range 0`. -/
def get_order_arch (ls : List (List String)) : List String :=
  (List.range ((ls.map List.length).foldr max 0)).flatMap
    (fun i => ls.filterMap (fun l => l[i]?))

/-- Translation of `DataConverter.__get_order_of_common_settings`: per
architecture, interleave the contributing lists index by index into one
candidate sequence. -/
def get_order_of_common_settings
    (lists_of_items_to_merge_arch : Dict String (Dict ConfigKey (List String))) :
    Dict String (List String) :=
  lists_of_items_to_merge_arch.foldl
    (fun acc p => Dict.insert acc p.1 (get_order_arch (p.2.map Prod.snd))) []

/-- The inner loop of `__get_common_ordered_settings` over one architecture's
candidate sequence: append each element still in the remaining set `s`, remove
it from `s`, and — faithfully to the source — break out of the loop right after
an append whenever the whole `set_of_items` dictionary (`sets_nonempty` is its
non-emptiness, constant during the loop) is empty. Returns the common list
built so far together with the remaining set. -/
def common_ordered_loop (sets_nonempty : Bool) (s : List String)
    (acc : List String) : List String → List String × List String
  | [] => (acc, s)
  | element :: rest =>
    if element ∈ s then
      let s' := s.erase element
      if sets_nonempty then common_ordered_loop sets_nonempty s' (acc ++ [element]) rest
      else (acc ++ [element], s')
    else common_ordered_loop sets_nonempty s acc rest

/-- Translation of `DataConverter.__get_common_ordered_settings`: filter each
architecture's candidate sequence down to the first occurrences of the elements
of that architecture's intersection set. The source's `if not set_of_items:
break` tests the whole dictionary, which `common_ordered_loop` receives as
`sets_nonempty`. The `set_of_items[arch]` subscript raises `KeyError` (here:
`none`) when the architecture is missing, which the source only reaches when
the candidate sequence is non-empty. -/
def get_common_ordered_settings (merged_order_list_arch : Dict String (List String))
    (set_of_items : Dict String (List String)) : Option (Dict String (List String)) :=
  List.foldlM
    (fun acc (p : String × List String) =>
      match p.2 with
      | [] => some (Dict.insert acc p.1 [])
      | element :: rest => do
          let s ← Dict.find? set_of_items p.1
          some (Dict.insert acc p.1
            ((common_ordered_loop (!set_of_items.isEmpty) s [] (element :: rest)).1)))
    [] merged_order_list_arch

/-- The final commit loop of `merge_data_settings`: store each architecture's
merged common list under the wildcard key `(None, arch)` and make the
configuration map resolve that wildcard key to itself. -/
def commit_merged_settings (context : Context)
    (merged_settings : Dict String (List String)) (key : String) : Option Context :=
  List.foldlM
    (fun ctx (p : String × List String) => do
      let r ← Dict.find? ctx.settings (none, some p.1)
      some
        { ctx with
          settings :=
            Dict.insert ctx.settings (none, some p.1)
              { r with lists := Dict.insert r.lists key p.2 },
          sln_configurations_map :=
            Dict.insert ctx.sln_configurations_map (none, some p.1) (none, some p.1) })
    context merged_settings

/-- The body of `merge_data_settings` for one mergeable key: intersection pass
over the configuration map, removal of the common settings from every
contributing configuration, order reconstruction, filtering to the common
order, and the final commit. -/
def merge_key (init_record : ConfigKey → SettingsRecord) (context : Context)
    (key : String) : Option Context := do
  let st ←
    List.foldlM (intersectionStep init_record key)
      ⟨context, [], []⟩ context.sln_configurations_map
  let context₂ ←
    remove_common_settings_from_context st.ctx st.lists_of_items_to_merge
      st.set_of_items key
  let merged_order_lists := get_order_of_common_settings st.lists_of_items_to_merge
  let merged_settings ←
    get_common_ordered_settings merged_order_lists st.set_of_items
  commit_merged_settings context₂ merged_settings key

/-- Translation of `DataConverter.merge_data_settings` for a context whose
`file_contexts` is `None`: run the per-key merge for every mergeable key.
`lists_of_settings_to_merge` is the externally supplied list of mergeable
setting names (`utils.lists_of_settings_to_merge()`), and `init_record` the
default-initialization hook, both modelled from the spec as parameters. -/
def merge_data_settings (init_record : ConfigKey → SettingsRecord)
    (lists_of_settings_to_merge : List String) (context : Context) : Option Context :=
  List.foldlM (merge_key init_record) context lists_of_settings_to_merge

/-- Simpler reference form of `__get_common_ordered_settings`, following the
spec's words: filter the entire candidate sequence, with no early exit. -/
def get_common_ordered_settings_noexit
    (merged_order_list_arch : Dict String (List String))
    (set_of_items : Dict String (List String)) : Option (Dict String (List String)) :=
  List.foldlM
    (fun acc (p : String × List String) =>
      match p.2 with
      | [] => some (Dict.insert acc p.1 [])
      | element :: rest => do
          let s ← Dict.find? set_of_items p.1
          some (Dict.insert acc p.1 (filterCommon (element :: rest) s)))
    [] merged_order_list_arch

/-- Invariant of the intersection pass, after processing the prefix `pre` of
the configuration-map entries starting from state `⟨ctx, [], []⟩`: the context
only gained lazily-initialized wildcard records (concrete lookups and the map
are untouched), `(None, arch)` exists for every processed architecture, and the
two local dictionaries hold, per architecture, exactly the contributing
`(sln_setting, original-list)` pairs in encounter order and the running
intersection of the contributed lists. -/
structure PassInv (ctx : Context) (key : String)
    (pre : List (ConfigKey × ConfigKey)) (st : MergePassState) : Prop where
  map_eq : st.ctx.sln_configurations_map = ctx.sln_configurations_map
  settings_concrete : ∀ c : ConfigKey, c.1.isSome →
    Dict.find? st.ctx.settings c = Dict.find? ctx.settings c
  wild_present : ∀ e ∈ pre, Dict.contains st.ctx.settings (none, e.1.2) = true
  settings_wf : Dict.WF st.ctx.settings
  lists_wf : Dict.WF st.lists_of_items_to_merge
  lists_char : ∀ a : String,
    Dict.find? st.lists_of_items_to_merge a =
      if pre.any (fun e => e.1.2 = some a) then
        some (contribList ctx.settings key a pre)
      else none
  sets_char : ∀ a : String,
    Dict.find? st.set_of_items a =
      if (contribList ctx.settings key a pre).isEmpty then none
      else some (interOf ((contribList ctx.settings key a pre).map Prod.snd))

end DataConverter

/-- Baseline record produced by the modelled default-initialization hook in the
concrete scenarios below. -/
def baseline_init : ConfigKey → SettingsRecord :=
  fun _ => { target_type := "", lists := [] }

/-- The spec's two-configuration scenario: configurations Debug and Release of
architecture x64 whose lists for the mergeable key `cl` are `X Y Z` and
`Y X W`, each solution configuration mapping to itself. -/
def two_config_ctx : Context :=
  { settings :=
      [ ((some "debug", some "x64"),
          { target_type := "Application", lists := [("cl", ["X", "Y", "Z"])] }),
        ((some "release", some "x64"),
          { target_type := "Application", lists := [("cl", ["Y", "X", "W"])] }) ],
    sln_configurations_map :=
      [ ((some "debug", some "x64"), (some "debug", some "x64")),
        ((some "release", some "x64"), (some "release", some "x64")) ],
    configurations_to_parse :=
      [ (some "debug", some "x64"), (some "release", some "x64") ],
    current_setting := (none, none),
    vcxproj_path := "project.vcxproj",
    messages := [] }

/-- The intersection pass of the merge over `two_config_ctx` for key `cl`. -/
def two_config_pass : Option DataConverter.MergePassState :=
  List.foldlM (DataConverter.intersectionStep baseline_init "cl")
    ⟨two_config_ctx, [], []⟩ two_config_ctx.sln_configurations_map

/-- The merge over `two_config_ctx` for the single mergeable key `cl`. -/
def two_config_merged : Option Context :=
  DataConverter.merge_data_settings baseline_init ["cl"] two_config_ctx

/-- A second run of the merge on the result of the first. -/
def two_config_merged_twice : Option Context :=
  two_config_merged.bind (DataConverter.merge_data_settings baseline_init ["cl"])

/-- A store whose two concrete configurations declare different output-binary
types. -/
def mixed_target_ctx : Context :=
  { settings :=
      [ ((some "debug", some "x64"),
          { target_type := "Application", lists := [] }),
        ((some "release", some "x64"),
          { target_type := "DynamicLibrary", lists := [] }) ],
    sln_configurations_map := [],
    configurations_to_parse := [],
    current_setting := (none, none),
    vcxproj_path := "project.vcxproj",
    messages := [] }

/-- The merged context of the two-configuration scenario; the merge succeeds,
so the default is never used. -/
def two_config_merged_ctx : Context :=
  (DataConverter.merge_data_settings baseline_init ["cl"] two_config_ctx).getD
    two_config_ctx

/-- Two configurations of architecture x64 whose `cl` lists share no value. -/
def no_common_ctx : Context :=
  { settings :=
      [ ((some "debug", some "x64"),
          { target_type := "Application", lists := [("cl", ["A1", "A2"])] }),
        ((some "release", some "x64"),
          { target_type := "Application", lists := [("cl", ["B1"])] }) ],
    sln_configurations_map :=
      [ ((some "debug", some "x64"), (some "debug", some "x64")),
        ((some "release", some "x64"), (some "release", some "x64")) ],
    configurations_to_parse :=
      [ (some "debug", some "x64"), (some "release", some "x64") ],
    current_setting := (none, none),
    vcxproj_path := "project.vcxproj",
    messages := [] }

/-- The merged context of the no-common-value scenario. -/
def no_common_merged_ctx : Context :=
  (DataConverter.merge_data_settings baseline_init ["cl"] no_common_ctx).getD
    no_common_ctx

/-- Two configurations of architecture x64 where the common value D occurs
twice in the first configuration's `cl` list. -/
def dup_value_ctx : Context :=
  { settings :=
      [ ((some "debug", some "x64"),
          { target_type := "Application", lists := [("cl", ["D", "D", "E"])] }),
        ((some "release", some "x64"),
          { target_type := "Application", lists := [("cl", ["D", "F"])] }) ],
    sln_configurations_map :=
      [ ((some "debug", some "x64"), (some "debug", some "x64")),
        ((some "release", some "x64"), (some "release", some "x64")) ],
    configurations_to_parse :=
      [ (some "debug", some "x64"), (some "release", some "x64") ],
    current_setting := (none, none),
    vcxproj_path := "project.vcxproj",
    messages := [] }

/-- The merged context of the duplicated-value scenario. -/
def dup_value_merged_ctx : Context :=
  (DataConverter.merge_data_settings baseline_init ["cl"] dup_value_ctx).getD
    dup_value_ctx

/-- The settings store and configuration map of a context: the state the merge
engine reads and writes. -/
def settingsAndMap (c : Context) :
    Dict ConfigKey SettingsRecord × Dict ConfigKey ConfigKey :=
  (c.settings, c.sln_configurations_map)

/-- The spec's Validator-pruning scenario: configurations A, B, C requested,
store containing only A and C. -/
def validator_ctx : Context :=
  { settings :=
      [ ((some "A", some "Win32"),
          { target_type := "Application", lists := [] }),
        ((some "C", some "Win32"),
          { target_type := "Application", lists := [] }) ],
    sln_configurations_map := [],
    configurations_to_parse :=
      [ (some "A", some "Win32"), (some "B", some "Win32"), (some "C", some "Win32") ],
    current_setting := (none, none),
    vcxproj_path := "project.vcxproj",
    messages := [] }


open DataConverter

/-! ### General lemmas about the validator -/

theorem one_lt_dedup_length_iff (l : List String) :
    1 < l.dedup.length ↔ ∃ a ∈ l, ∃ b ∈ l, a ≠ b := by
  constructor
  · intro h
    match hd : l.dedup with
    | [] => rw [hd] at h; simp at h
    | [x] => rw [hd] at h; simp at h
    | x :: y :: t =>
      have hnd := l.nodup_dedup
      rw [hd] at hnd
      have hxy : x ≠ y := by
        intro he
        subst he
        simp [List.nodup_cons] at hnd
      have hx : x ∈ l := List.mem_dedup.mp (hd ▸ List.mem_cons_self _ _)
      have hy : y ∈ l :=
        List.mem_dedup.mp (hd ▸ List.mem_cons_of_mem _ (List.mem_cons_self _ _))
      exact ⟨x, hx, y, hy, hxy⟩
  · rintro ⟨a, ha, b, hb, hab⟩
    have ha' : a ∈ l.dedup := List.mem_dedup.mpr ha
    have hb' : b ∈ l.dedup := List.mem_dedup.mpr hb
    match hd : l.dedup with
    | [] => rw [hd] at ha'; simp at ha'
    | [x] =>
      rw [hd] at ha' hb'
      simp at ha' hb'
      exact absurd (ha'.trans hb'.symm) hab
    | x :: y :: t => simp [hd]

/-- The failure condition of the completeness check, as an existential. -/
theorem absent_length_pos_iff (context : Context) :
    0 < (context.configurations_to_parse.filter
          (fun s => !Dict.contains context.settings s)).length
      ↔ ∃ c ∈ context.configurations_to_parse,
          Dict.contains context.settings c = false := by
  rw [List.length_pos, Ne, List.filter_eq_nil_iff]
  push_neg
  constructor
  · rintro ⟨c, hc1, hc2⟩
    exact ⟨c, hc1, by simpa using hc2⟩
  · rintro ⟨c, hc1, hc2⟩
    exact ⟨c, hc1, by simpa using hc2⟩

theorem verify_target_types_cases (context : Context) :
    verify_target_types context = context ∨
      verify_target_types context = message context Diag.targetTypeWarn := by
  simp only [verify_target_types]
  by_cases h :
      1 <
        (((context.settings.filter
            (fun p => !(p.1.1 = none ∨ p.1.2 = none : Bool))).map
            (fun p => p.2.target_type)).dedup).length
  · right
    rw [if_pos h]
  · left
    rw [if_neg h]

theorem verify_target_types_settings (context : Context) :
    (verify_target_types context).settings = context.settings := by
  rcases verify_target_types_cases context with h | h <;> simp [h, message]

theorem verify_target_types_ctp (context : Context) :
    (verify_target_types context).configurations_to_parse =
      context.configurations_to_parse := by
  rcases verify_target_types_cases context with h | h <;> simp [h, message]

theorem verify_configurations_snd_congr (c₁ c₂ : Context)
    (hs : c₁.settings = c₂.settings)
    (hc : c₁.configurations_to_parse = c₂.configurations_to_parse) :
    (verify_configurations_to_parse c₁).2 = (verify_configurations_to_parse c₂).2 := by
  simp only [verify_configurations_to_parse]
  rw [hs, hc]
  by_cases h :
      0 <
        (List.filter (fun s => !Dict.contains c₂.settings s)
          c₂.configurations_to_parse).length
  · rw [if_pos h, if_pos h]
  · rw [if_neg h, if_neg h]

/-! ### Claim C5 — the completeness check -/

/-- C5: the Validator's completeness check (`__verify_configurations_to_parse`)
returns `false` iff some requested configuration is absent from the settings
store; on failure the absent configurations are removed from the requested set
and exactly one error-level diagnostic naming the project and the missing
configurations is emitted; on success the context is returned unchanged. -/
theorem C5_completeness_check (context : Context) :
    ((verify_configurations_to_parse context).2 = false ↔
      ∃ c ∈ context.configurations_to_parse,
        Dict.contains context.settings c = false)
    ∧ ((verify_configurations_to_parse context).2 = false →
        (verify_configurations_to_parse context).1 =
          message
            { context with
              configurations_to_parse :=
                context.configurations_to_parse.filter
                  (fun s => Dict.contains context.settings s) }
            (Diag.absentSettingsError context.vcxproj_path
              (context.configurations_to_parse.filter
                (fun s => !Dict.contains context.settings s))))
    ∧ (Diag.absentSettingsError context.vcxproj_path
        (context.configurations_to_parse.filter
          (fun s => !Dict.contains context.settings s))).severity = "error"
    ∧ ((verify_configurations_to_parse context).2 = true →
        (verify_configurations_to_parse context).1 = context) := by
  simp only [verify_configurations_to_parse]
  by_cases h :
      0 <
        (List.filter (fun s => !Dict.contains context.settings s)
          context.configurations_to_parse).length
  · rw [if_pos h]
    refine ⟨?_, ?_, rfl, ?_⟩
    · simpa using (absent_length_pos_iff context).mp h
    · intro _
      rfl
    · intro hfalse
      simp at hfalse
  · rw [if_neg h]
    refine ⟨?_, ?_, rfl, fun _ => rfl⟩
    · constructor
      · intro hfalse
        simp at hfalse
      · intro hex
        exact absurd ((absent_length_pos_iff context).mpr hex) h
    · intro hfalse
      simp at hfalse

/-- Witness for C5 on the spec's pruning scenario: requested A, B, C; store
holds A and C; the check fails, prunes B and emits the diagnostic naming B. -/
theorem C5_completeness_check_witness :
    (verify_configurations_to_parse validator_ctx).2 = false
    ∧ (verify_configurations_to_parse validator_ctx).1 =
        message
          { validator_ctx with
            configurations_to_parse :=
              [(some "A", some "Win32"), (some "C", some "Win32")] }
          (Diag.absentSettingsError "project.vcxproj" [(some "B", some "Win32")]) := by
  refine ⟨by decide, ?_⟩
  rw [(C5_completeness_check validator_ctx).2.1 (by decide)]
  decide

/-! ### Claim C7 — the target-type check -/

/-- C7: the Validator's target-type check (`__verify_target_types`) emits its
warning iff two non-wildcard configurations of the settings store declare
distinct output-binary types (and does nothing otherwise), and the boolean
returned by `verify_data` is exactly the completeness check's boolean on the
original context, so the warning never affects the result. -/
theorem C7_target_type_check (context : Context) :
    ((verify_target_types context = message context Diag.targetTypeWarn ∧
        verify_target_types context ≠ context) ↔
      ∃ p ∈ context.settings, ∃ q ∈ context.settings,
        p.1.1 ≠ none ∧ p.1.2 ≠ none ∧ q.1.1 ≠ none ∧ q.1.2 ≠ none ∧
          p.2.target_type ≠ q.2.target_type)
    ∧ Diag.targetTypeWarn.severity = "warn"
    ∧ (verify_data context).2 = (verify_configurations_to_parse context).2 := by
  have hmsg_ne : message context Diag.targetTypeWarn ≠ context := by
    intro he
    have := congrArg (fun c => c.messages.length) he
    simp [message] at this
  have hchar :
      (∃ p ∈ context.settings, ∃ q ∈ context.settings,
          p.1.1 ≠ none ∧ p.1.2 ≠ none ∧ q.1.1 ≠ none ∧ q.1.2 ≠ none ∧
            p.2.target_type ≠ q.2.target_type) ↔
        1 <
          (((context.settings.filter
              (fun p => !(p.1.1 = none ∨ p.1.2 = none : Bool))).map
              (fun p => p.2.target_type)).dedup).length := by
    rw [one_lt_dedup_length_iff]
    constructor
    · rintro ⟨p, hp, q, hq, hp1, hp2, hq1, hq2, hne⟩
      refine ⟨p.2.target_type, ?_, q.2.target_type, ?_, hne⟩
      · exact List.mem_map_of_mem _ (List.mem_filter.mpr ⟨hp, by simp [hp1, hp2]⟩)
      · exact List.mem_map_of_mem _ (List.mem_filter.mpr ⟨hq, by simp [hq1, hq2]⟩)
    · rintro ⟨a, ha, b, hb, hab⟩
      rcases List.mem_map.mp ha with ⟨p, hp, hpa⟩
      rcases List.mem_map.mp hb with ⟨q, hq, hqb⟩
      rcases List.mem_filter.mp hp with ⟨hp1, hp2⟩
      rcases List.mem_filter.mp hq with ⟨hq1, hq2⟩
      simp only [Bool.not_eq_eq_eq_not, Bool.not_true, decide_eq_false_iff_not,
        not_or] at hp2 hq2
      exact ⟨p, hp1, q, hq1, hp2.1, hp2.2, hq2.1, hq2.2, by rw [hpa, hqb]; exact hab⟩
  refine ⟨?_, rfl, ?_⟩
  · rw [hchar]
    simp only [verify_target_types]
    by_cases h :
        1 <
          (((context.settings.filter
              (fun p => !(p.1.1 = none ∨ p.1.2 = none : Bool))).map
              (fun p => p.2.target_type)).dedup).length
    · rw [if_pos h]
      exact ⟨fun _ => h, fun _ => ⟨rfl, hmsg_ne⟩⟩
    · rw [if_neg h]
      constructor
      · intro hcontra
        exact absurd rfl hcontra.2
      · intro hcontra
        exact absurd hcontra h
  · unfold verify_data
    exact verify_configurations_snd_congr _ _
      (verify_target_types_settings context) (verify_target_types_ctp context)

/-- Witness for C7: a store with two distinct output-binary types makes the
check emit the warning, and the returned boolean is the completeness check's. -/
theorem C7_target_type_check_witness :
    verify_target_types mixed_target_ctx = message mixed_target_ctx Diag.targetTypeWarn
    ∧ (verify_data mixed_target_ctx).2 =
        (verify_configurations_to_parse mixed_target_ctx).2 := by
  refine ⟨((C7_target_type_check mixed_target_ctx).1.mpr ?_).1,
    (C7_target_type_check mixed_target_ctx).2.2⟩
  refine ⟨((some "debug", some "x64"),
      { target_type := "Application", lists := [] }), by decide,
    ((some "release", some "x64"),
      { target_type := "DynamicLibrary", lists := [] }), by decide, ?_⟩
  refine ⟨by decide, by decide, by decide, by decide, by decide⟩

/-! ### Claim C8 — verify_data mutates no settings record -/

/-- C8: `verify_data` never mutates the settings store (hence no
`SettingsRecord`), nor the configuration map, the current setting or the
project path; its only state changes are appending diagnostics and pruning the
requested set down to the configurations present in the store. -/
theorem C8_verify_data_frame (context : Context) :
    (verify_data context).1.settings = context.settings
    ∧ (verify_data context).1.sln_configurations_map = context.sln_configurations_map
    ∧ (verify_data context).1.current_setting = context.current_setting
    ∧ (verify_data context).1.vcxproj_path = context.vcxproj_path
    ∧ (verify_data context).1.configurations_to_parse =
        context.configurations_to_parse.filter
          (fun s => Dict.contains context.settings s)
    ∧ ∃ ds : List Diag, (verify_data context).1.messages = context.messages ++ ds := by
  unfold verify_data
  have hfilter_of :
      ¬(0 <
          (List.filter (fun s => !Dict.contains context.settings s)
            context.configurations_to_parse).length) →
        List.filter (fun s => Dict.contains context.settings s)
            context.configurations_to_parse =
          context.configurations_to_parse := by
    intro h
    refine List.filter_eq_self.mpr ?_
    intro s hs
    by_contra hcon
    have hfalse : Dict.contains context.settings s = false := by
      cases hx : Dict.contains context.settings s
      · rfl
      · exact absurd hx hcon
    exact absurd ((absent_length_pos_iff context).mpr ⟨s, hs, hfalse⟩) h
  rcases verify_target_types_cases context with hv | hv <;> rw [hv]
  · simp only [verify_configurations_to_parse, message]
    by_cases h :
        0 <
          (List.filter (fun s => !Dict.contains context.settings s)
            context.configurations_to_parse).length
    · rw [if_pos h]
      exact ⟨rfl, rfl, rfl, rfl, rfl,
        ⟨[Diag.absentSettingsError context.vcxproj_path
            (List.filter (fun s => !Dict.contains context.settings s)
              context.configurations_to_parse)], rfl⟩⟩
    · rw [if_neg h]
      exact ⟨rfl, rfl, rfl, rfl, (hfilter_of h).symm, ⟨[], by simp⟩⟩
  · simp only [verify_configurations_to_parse, message]
    by_cases h :
        0 <
          (List.filter (fun s => !Dict.contains context.settings s)
            context.configurations_to_parse).length
    · rw [if_pos h]
      refine ⟨rfl, rfl, rfl, rfl, rfl,
        ⟨[Diag.targetTypeWarn,
          Diag.absentSettingsError context.vcxproj_path
            (List.filter (fun s => !Dict.contains context.settings s)
              context.configurations_to_parse)], by simp⟩⟩
    · rw [if_neg h]
      exact ⟨rfl, rfl, rfl, rfl, (hfilter_of h).symm, ⟨[Diag.targetTypeWarn], by simp⟩⟩

/-! ### Claim C2 — the two-configuration scenario -/

/-- C2: on two configurations of architecture x64 with lists `X Y Z` and
`Y X W` for the mergeable key `cl`, the merge computes the intersection
(`set_of_items` holds exactly X and Y), the index-synchronized round-robin
candidate sequence `X Y Y X Z W`, the final common list `X Y`, hoisted into the
wildcard key, and residual lists `Z` and `W`. -/
theorem C2_two_configuration_scenario :
    two_config_pass.map MergePassState.set_of_items = some [("x64", ["X", "Y"])]
    ∧ two_config_pass.map
        (fun st => get_order_of_common_settings st.lists_of_items_to_merge)
      = some [("x64", ["X", "Y", "Y", "X", "Z", "W"])]
    ∧ two_config_pass.bind
        (fun st =>
          get_common_ordered_settings
            (get_order_of_common_settings st.lists_of_items_to_merge)
            st.set_of_items)
      = some [("x64", ["X", "Y"])]
    ∧ two_config_merged.map (fun c => settingView c (none, some "x64") "cl")
      = some (some (some ["X", "Y"]))
    ∧ two_config_merged.map (fun c => settingView c (some "debug", some "x64") "cl")
      = some (some (some ["Z"]))
    ∧ two_config_merged.map (fun c => settingView c (some "release", some "x64") "cl")
      = some (some (some ["W"])) := by
  exact ⟨by decide, by decide, by decide, by decide, by decide, by decide⟩

/-! ### Claim C3 — a second merge run is not the identity -/

/-- C3 fails on the code: running `merge_data_settings` a second time on the
already-merged two-configuration scenario does not leave the settings store
unchanged — the wildcard common list `X Y` is overwritten with the (empty)
intersection of the residual lists. -/
theorem C3_counterexample_second_run :
    two_config_merged.map (fun c => settingView c (none, some "x64") "cl")
      = some (some (some ["X", "Y"]))
    ∧ two_config_merged_twice.map (fun c => settingView c (none, some "x64") "cl")
      = some (some (some []))
    ∧ two_config_merged_twice.map Context.settings
      ≠ two_config_merged.map Context.settings := by
  exact ⟨by decide, by decide, by decide⟩

/-- C3 amended: on already-merged settings a second run leaves the
configuration map and the concrete configurations' records unchanged, but
overwrites the wildcard common list with the empty list (the residual lists
share no values), so the settings store is changed. -/
theorem C3_amended_second_run :
    two_config_merged_twice.map Context.sln_configurations_map
      = two_config_merged.map Context.sln_configurations_map
    ∧ two_config_merged_twice.map
        (fun c => Dict.find? c.settings (some "debug", some "x64"))
      = two_config_merged.map
        (fun c => Dict.find? c.settings (some "debug", some "x64"))
    ∧ two_config_merged_twice.map
        (fun c => Dict.find? c.settings (some "release", some "x64"))
      = two_config_merged.map
        (fun c => Dict.find? c.settings (some "release", some "x64"))
    ∧ two_config_merged.map (fun c => settingView c (none, some "x64") "cl")
      = some (some (some ["X", "Y"]))
    ∧ two_config_merged_twice.map (fun c => settingView c (none, some "x64") "cl")
      = some (some (some [])) := by
  exact ⟨by decide, by decide, by decide, by decide, by decide⟩

/-! ### Claim C9 — the early-exit branch never fires -/

theorem common_ordered_loop_fst (l : List String) :
    ∀ s acc : List String,
      (common_ordered_loop true s acc l).1 = acc ++ filterCommon l s := by
  induction l with
  | nil =>
    intro s acc
    simp [common_ordered_loop, filterCommon]
  | cons e rest ih =>
    intro s acc
    by_cases he : e ∈ s
    · simp [common_ordered_loop, filterCommon, he, ih]
    · simp [common_ordered_loop, filterCommon, he, ih]

/-- C9: the guard `if not set_of_items: break` of
`__get_common_ordered_settings` tests the whole per-architecture dictionary,
so whenever that dictionary is non-empty the break is never taken and the
function equals the simpler definition that filters the entire candidate
sequence with no early exit. -/
theorem C9_no_early_exit (merged_order_list_arch : Dict String (List String))
    (set_of_items : Dict String (List String)) (h : set_of_items ≠ []) :
    get_common_ordered_settings merged_order_list_arch set_of_items
      = get_common_ordered_settings_noexit merged_order_list_arch set_of_items := by
  have hne : (!set_of_items.isEmpty) = true := by
    cases set_of_items with
    | nil => exact absurd rfl h
    | cons p d => simp [List.isEmpty]
  unfold get_common_ordered_settings get_common_ordered_settings_noexit
  rw [hne]
  suffices hgen :
      ∀ (mo : List (String × List String)) (acc : Dict String (List String)),
        List.foldlM
          (fun acc (p : String × List String) =>
            match p.2 with
            | [] => some (Dict.insert acc p.1 [])
            | element :: rest => do
                let s ← Dict.find? set_of_items p.1
                some (Dict.insert acc p.1
                  ((common_ordered_loop true s [] (element :: rest)).1)))
          acc mo =
        List.foldlM
          (fun acc (p : String × List String) =>
            match p.2 with
            | [] => some (Dict.insert acc p.1 [])
            | element :: rest => do
                let s ← Dict.find? set_of_items p.1
                some (Dict.insert acc p.1 (filterCommon (element :: rest) s)))
          acc mo by
    exact hgen merged_order_list_arch []
  intro mo
  induction mo with
  | nil => intro acc; rfl
  | cons p rest ih =>
    intro acc
    rw [List.foldlM_cons, List.foldlM_cons]
    cases hp : p.2 with
    | nil => exact ih _
    | cons e r =>
      cases hf : Dict.find? set_of_items p.1 with
      | none => simp [Option.bind]
      | some s =>
        simp only [Option.bind_eq_bind, Option.some_bind, hf]
        rw [common_ordered_loop_fst]
        simp only [List.nil_append]
        exact ih _

/-- Witness for C9 at a concrete non-empty `set_of_items` dictionary. -/
theorem C9_no_early_exit_witness :
    ([("x64", ["X"])] : Dict String (List String)) ≠ []
    ∧ get_common_ordered_settings [("x64", ["X", "Y", "X"])] [("x64", ["X"])]
        = get_common_ordered_settings_noexit [("x64", ["X", "Y", "X"])]
            [("x64", ["X"])] :=
  ⟨by decide, C9_no_early_exit [("x64", ["X", "Y", "X"])] [("x64", ["X"])] (by decide)⟩

/-! ### Lemmas about the intersection list and the contributing configurations -/

theorem Dict.contains_insert_of_contains {α β : Type} [DecidableEq α]
    (d : Dict α β) (k c : α) (v : β) (h : Dict.contains d c = true) :
    Dict.contains (Dict.insert d k v) c = true := by
  by_cases hk : c = k
  · subst hk
    exact Dict.contains_insert_self d c v
  · rw [Dict.contains_insert_ne d k c v hk]
    exact h

theorem mem_foldl_filter (ls : List (List String)) (init : List String) (v : String) :
    v ∈ ls.foldl (fun s l2 => s.filter (fun x => x ∈ l2)) init ↔
      v ∈ init ∧ ∀ l ∈ ls, v ∈ l := by
  induction ls generalizing init with
  | nil => simp
  | cons l t ih =>
    rw [List.foldl_cons, ih]
    simp only [List.mem_filter, decide_eq_true_eq, List.forall_mem_cons]
    tauto

theorem nodup_foldl_filter (ls : List (List String)) (init : List String)
    (h : init.Nodup) :
    (ls.foldl (fun s l2 => s.filter (fun x => x ∈ l2)) init).Nodup := by
  induction ls generalizing init with
  | nil => exact h
  | cons l t ih => exact ih _ (h.filter _)

theorem mem_interOf (ls : List (List String)) (hne : ls ≠ []) (v : String) :
    v ∈ interOf ls ↔ ∀ l ∈ ls, v ∈ l := by
  cases ls with
  | nil => exact absurd rfl hne
  | cons l t =>
    unfold interOf
    rw [mem_foldl_filter]
    simp only [List.mem_filter, List.mem_dedup, decide_eq_true_eq, List.forall_mem_cons]
    tauto

theorem nodup_interOf (ls : List (List String)) : (interOf ls).Nodup := by
  cases ls with
  | nil => simp [interOf]
  | cons l t => exact nodup_foldl_filter _ _ (l.nodup_dedup.filter _)

theorem interOf_snoc (ls : List (List String)) (l : List String) :
    interOf (ls ++ [l]) =
      if ls.isEmpty then l.dedup.filter (fun v => v ∈ l)
      else (interOf ls).filter (fun v => v ∈ l) := by
  cases ls with
  | nil => simp [interOf]
  | cons x t => simp [interOf, List.foldl_append]

theorem contribList_append (settings : Dict ConfigKey SettingsRecord) (key : String)
    (a : String) (l₁ l₂ : List (ConfigKey × ConfigKey)) :
    contribList settings key a (l₁ ++ l₂) =
      contribList settings key a l₁ ++ contribList settings key a l₂ := by
  simp [contribList, List.filterMap_append]

theorem contribList_mem_fst (settings : Dict ConfigKey SettingsRecord) (key : String)
    (a : String) (pre : List (ConfigKey × ConfigKey)) (x : ConfigKey)
    (hx : x ∈ (contribList settings key a pre).map Prod.fst) :
    x ∈ pre.map Prod.fst := by
  rcases List.mem_map.mp hx with ⟨q, hq, hqx⟩
  rcases List.mem_filterMap.mp hq with ⟨e, he, hfe⟩
  refine List.mem_map.mpr ⟨e, he, ?_⟩
  by_cases hcond : e.1.2 = some a ∧ e.2.1.isSome
  · rw [if_pos hcond] at hfe
    cases hfind : Dict.find? settings e.2 with
    | none => rw [hfind] at hfe; simp at hfe
    | some r =>
      rw [hfind] at hfe
      rcases Option.map_eq_some'.mp hfe with ⟨l, _, hql⟩
      rw [← hql] at hqx
      exact hqx
  · rw [if_neg hcond] at hfe
    simp at hfe

/-- A single non-contributing entry adds nothing to `contribList`. -/
theorem contribList_singleton_none (settings : Dict ConfigKey SettingsRecord)
    (key : String) (a : String) (e : ConfigKey × ConfigKey)
    (h : ¬(e.1.2 = some a ∧ e.2.1.isSome = true ∧
        ∃ r, Dict.find? settings e.2 = some r ∧ (Dict.find? r.lists key).isSome)) :
    contribList settings key a [e] = [] := by
  unfold contribList
  by_cases hcond : e.1.2 = some a ∧ e.2.1.isSome
  · cases hfind : Dict.find? settings e.2 with
    | none => simp [List.filterMap, if_pos hcond, hfind]
    | some r =>
      cases hkey : Dict.find? r.lists key with
      | none => simp [List.filterMap, if_pos hcond, hfind, hkey]
      | some l => exact absurd ⟨hcond.1, hcond.2, r, hfind, by simp [hkey]⟩ h
  · simp [List.filterMap, if_neg hcond]

/-- A single contributing entry adds exactly its pair to `contribList`. -/
theorem contribList_singleton_some (settings : Dict ConfigKey SettingsRecord)
    (key : String) (a : String) (e : ConfigKey × ConfigKey) (r : SettingsRecord)
    (l : List String) (h1 : e.1.2 = some a) (h2 : e.2.1.isSome = true)
    (h3 : Dict.find? settings e.2 = some r) (h4 : Dict.find? r.lists key = some l) :
    contribList settings key a [e] = [(e.1, l)] := by
  unfold contribList
  simp [List.filterMap, h1, h2, h3, h4]

/-! ### The intersection-pass invariant -/

theorem ensure_arch_entry_none (lists : Dict String (Dict ConfigKey (List String))) :
    ensure_arch_entry lists none = lists := rfl

theorem ensure_arch_entry_find_ne (lists : Dict String (Dict ConfigKey (List String)))
    (a a' : String) (h : a' ≠ a) :
    Dict.find? (ensure_arch_entry lists (some a)) a' = Dict.find? lists a' := by
  simp only [ensure_arch_entry]
  by_cases hc : Dict.contains lists a = true
  · rw [if_pos hc]
  · rw [if_neg hc, Dict.find?_insert_ne lists a a' [] h]

theorem ensure_arch_entry_find_self (lists : Dict String (Dict ConfigKey (List String)))
    (a : String) :
    Dict.find? (ensure_arch_entry lists (some a)) a =
      some ((Dict.find? lists a).getD []) := by
  simp only [ensure_arch_entry]
  by_cases hc : Dict.contains lists a = true
  · rw [if_pos hc]
    rcases (Dict.contains_iff lists a).mp hc with ⟨v, hv⟩
    rw [hv]
    rfl
  · rw [if_neg hc, Dict.find?_insert_self]
    have : Dict.contains lists a = false := by
      cases hx : Dict.contains lists a
      · rfl
      · exact absurd hx hc
    rw [(Dict.contains_eq_false_iff lists a).mp this]
    rfl

theorem ensure_arch_entry_wf (lists : Dict String (Dict ConfigKey (List String)))
    (ar : Option String) (h : Dict.WF lists) : Dict.WF (ensure_arch_entry lists ar) := by
  cases ar with
  | none => exact h
  | some a =>
    simp only [ensure_arch_entry]
    by_cases hc : Dict.contains lists a = true
    · rw [if_pos hc]; exact h
    · rw [if_neg hc]; exact Dict.WF_insert lists a [] h

theorem ensure_wildcard_record_map (init_record : ConfigKey → SettingsRecord)
    (ctx : Context) (ar : Option String) :
    (ensure_wildcard_record init_record ctx ar).sln_configurations_map =
      ctx.sln_configurations_map := by
  unfold ensure_wildcard_record
  by_cases hc : Dict.contains ctx.settings (none, ar) = true
  · rw [if_pos hc]
  · rw [if_neg hc]

theorem ensure_wildcard_record_concrete (init_record : ConfigKey → SettingsRecord)
    (ctx : Context) (ar : Option String) (c : ConfigKey) (hc : c.1.isSome) :
    Dict.find? (ensure_wildcard_record init_record ctx ar).settings c =
      Dict.find? ctx.settings c := by
  unfold ensure_wildcard_record
  by_cases h : Dict.contains ctx.settings (none, ar) = true
  · rw [if_pos h]
  · rw [if_neg h]
    refine Dict.find?_insert_ne ctx.settings (none, ar) c (init_record (none, ar)) ?_
    intro he
    rw [he] at hc
    simp at hc

theorem ensure_wildcard_record_contains_self (init_record : ConfigKey → SettingsRecord)
    (ctx : Context) (ar : Option String) :
    Dict.contains (ensure_wildcard_record init_record ctx ar).settings (none, ar) = true := by
  unfold ensure_wildcard_record
  by_cases h : Dict.contains ctx.settings (none, ar) = true
  · rw [if_pos h]; exact h
  · rw [if_neg h]
    exact Dict.contains_insert_self ctx.settings (none, ar) (init_record (none, ar))

theorem ensure_wildcard_record_contains_mono (init_record : ConfigKey → SettingsRecord)
    (ctx : Context) (ar : Option String) (c : ConfigKey)
    (h : Dict.contains ctx.settings c = true) :
    Dict.contains (ensure_wildcard_record init_record ctx ar).settings c = true := by
  unfold ensure_wildcard_record
  by_cases hc : Dict.contains ctx.settings (none, ar) = true
  · rw [if_pos hc]; exact h
  · rw [if_neg hc]
    exact Dict.contains_insert_of_contains ctx.settings (none, ar) c _ h

theorem ensure_wildcard_record_wf (init_record : ConfigKey → SettingsRecord)
    (ctx : Context) (ar : Option String) (h : Dict.WF ctx.settings) :
    Dict.WF (ensure_wildcard_record init_record ctx ar).settings := by
  unfold ensure_wildcard_record
  by_cases hc : Dict.contains ctx.settings (none, ar) = true
  · rw [if_pos hc]; exact h
  · rw [if_neg hc]
    exact Dict.WF_insert ctx.settings (none, ar) (init_record (none, ar)) h

theorem contribList_empty_of_not_any (settings : Dict ConfigKey SettingsRecord)
    (key : String) (a : String) (pre : List (ConfigKey × ConfigKey))
    (h : pre.any (fun e => e.1.2 = some a) = false) :
    contribList settings key a pre = [] := by
  induction pre with
  | nil => rfl
  | cons e t ih =>
    simp only [List.any_cons, Bool.or_eq_false_iff] at h
    unfold contribList
    simp only [List.filterMap]
    have hcond : ¬(e.1.2 = some a ∧ e.2.1.isSome = true) := by
      intro hc
      rw [hc.1] at h
      simp at h
    rw [if_neg hcond]
    exact ih h.2

theorem PassInv_extend_noncontrib (init_record : ConfigKey → SettingsRecord)
    (ctx : Context) (key : String) (pre : List (ConfigKey × ConfigKey))
    (st : MergePassState) (sln m : ConfigKey)
    (hinv : PassInv ctx key pre st)
    (hnon : ∀ a : String, contribList ctx.settings key a [(sln, m)] = []) :
    PassInv ctx key (pre ++ [(sln, m)])
      { st with
        ctx := ensure_wildcard_record init_record st.ctx sln.2,
        lists_of_items_to_merge := ensure_arch_entry st.lists_of_items_to_merge sln.2 } := by
  have hcontrib : ∀ a : String,
      contribList ctx.settings key a (pre ++ [(sln, m)]) =
        contribList ctx.settings key a pre := by
    intro a
    rw [contribList_append, hnon a, List.append_nil]
  refine ⟨?_, ?_, ?_, ?_, ?_, ?_, ?_⟩
  · dsimp only
    rw [ensure_wildcard_record_map]
    exact hinv.map_eq
  · intro c hc
    dsimp only
    rw [ensure_wildcard_record_concrete _ _ _ _ hc]
    exact hinv.settings_concrete c hc
  · intro e he
    dsimp only
    rcases List.mem_append.mp he with he | he
    · exact ensure_wildcard_record_contains_mono _ _ _ _ (hinv.wild_present e he)
    · have heq : e = (sln, m) := by simpa using he
      subst heq
      exact ensure_wildcard_record_contains_self _ _ _
  · exact ensure_wildcard_record_wf _ _ _ hinv.settings_wf
  · exact ensure_arch_entry_wf _ _ hinv.lists_wf
  · intro a'
    dsimp only
    rw [hcontrib a']
    cases harch : sln.2 with
    | none =>
      rw [ensure_arch_entry_none]
      have hany : (pre ++ [(sln, m)]).any (fun e => e.1.2 = some a')
          = pre.any (fun e => e.1.2 = some a') := by
        simp [harch]
      rw [hany]
      exact hinv.lists_char a'
    | some a =>
      by_cases haa : a' = a
      · subst haa
        rw [ensure_arch_entry_find_self, hinv.lists_char a']
        have hany : (pre ++ [(sln, m)]).any (fun e => e.1.2 = some a') = true := by
          simp [harch]
        rw [hany, if_pos rfl]
        cases hpre : pre.any (fun e => e.1.2 = some a') with
        | true => simp [hpre]
        | false =>
          simp [hpre, contribList_empty_of_not_any ctx.settings key a' pre hpre]
      · rw [ensure_arch_entry_find_ne _ _ _ haa]
        have hany : (pre ++ [(sln, m)]).any (fun e => e.1.2 = some a')
            = pre.any (fun e => e.1.2 = some a') := by
          simp [harch, Ne.symm haa]
        rw [hany]
        exact hinv.lists_char a'
  · intro a'
    dsimp only
    rw [hcontrib a']
    exact hinv.sets_char a'

theorem PassInv_extend_contrib (init_record : ConfigKey → SettingsRecord)
    (ctx : Context) (key : String) (pre : List (ConfigKey × ConfigKey))
    (st : MergePassState) (sln m : ConfigKey) (a : String)
    (record : SettingsRecord) (settings_list s : List String)
    (sets₁ : Dict String (List String))
    (hinv : PassInv ctx key pre st)
    (hfresh : sln ∉ pre.map Prod.fst)
    (harch : sln.2 = some a)
    (hm1 : m.1.isSome = true)
    (hrecord : Dict.find? ctx.settings m = some record)
    (hkey2 : Dict.find? record.lists key = some settings_list)
    (hfilter : s.filter (fun v => v ∈ settings_list) =
      interOf ((contribList ctx.settings key a (pre ++ [(sln, m)])).map Prod.snd))
    (hsets₁ : ∀ a' : String, a' ≠ a →
      Dict.find? sets₁ a' = Dict.find? st.set_of_items a') :
    PassInv ctx key (pre ++ [(sln, m)])
      ⟨ensure_wildcard_record init_record st.ctx sln.2,
       Dict.insert (ensure_arch_entry st.lists_of_items_to_merge sln.2) a
         (Dict.insert (contribList ctx.settings key a pre) sln settings_list),
       Dict.insert sets₁ a (s.filter (fun v => v ∈ settings_list))⟩ := by
  have hsnoc : contribList ctx.settings key a (pre ++ [(sln, m)]) =
      contribList ctx.settings key a pre ++ [(sln, settings_list)] := by
    rw [contribList_append,
      contribList_singleton_some ctx.settings key a (sln, m) record settings_list
        harch hm1 hrecord hkey2]
  have hsnoc_ne : ∀ a' : String, a' ≠ a →
      contribList ctx.settings key a' (pre ++ [(sln, m)]) =
        contribList ctx.settings key a' pre := by
    intro a' ha'
    rw [contribList_append, contribList_singleton_none, List.append_nil]
    rintro ⟨h1, -, -⟩
    rw [harch] at h1
    injection h1 with h1
    exact ha' h1.symm
  have hinsert_append :
      Dict.insert (contribList ctx.settings key a pre) sln settings_list =
        contribList ctx.settings key a pre ++ [(sln, settings_list)] := by
    have hcontains : Dict.contains (contribList ctx.settings key a pre) sln = false := by
      rw [Dict.contains_eq_false_iff]
      apply Dict.find?_eq_none_of_not_mem_keys
      intro hmem
      exact hfresh (contribList_mem_fst ctx.settings key a pre sln hmem)
    unfold Dict.insert
    rw [hcontains]
    simp
  refine ⟨?_, ?_, ?_, ?_, ?_, ?_, ?_⟩
  · dsimp only
    rw [ensure_wildcard_record_map]
    exact hinv.map_eq
  · intro c hc
    dsimp only
    rw [ensure_wildcard_record_concrete _ _ _ _ hc]
    exact hinv.settings_concrete c hc
  · intro e he
    dsimp only
    rcases List.mem_append.mp he with he | he
    · exact ensure_wildcard_record_contains_mono _ _ _ _ (hinv.wild_present e he)
    · have heq : e = (sln, m) := by simpa using he
      subst heq
      exact ensure_wildcard_record_contains_self _ _ _
  · exact ensure_wildcard_record_wf _ _ _ hinv.settings_wf
  · exact Dict.WF_insert _ _ _ (ensure_arch_entry_wf _ _ hinv.lists_wf)
  · intro a'
    dsimp only
    by_cases haa : a' = a
    · subst haa
      rw [Dict.find?_insert_self, hinsert_append, ← hsnoc]
      have hany : (pre ++ [(sln, m)]).any (fun e => e.1.2 = some a') = true := by
        simp [harch]
      rw [hany, if_pos rfl]
    · rw [Dict.find?_insert_ne _ a a' _ haa, harch,
        ensure_arch_entry_find_ne _ _ _ haa, hsnoc_ne a' haa]
      have hany : (pre ++ [(sln, m)]).any (fun e => e.1.2 = some a')
          = pre.any (fun e => e.1.2 = some a') := by
        simp [harch, Ne.symm haa]
      rw [hany]
      exact hinv.lists_char a'
  · intro a'
    dsimp only
    by_cases haa : a' = a
    · subst haa
      rw [hsnoc] at hfilter
      rw [Dict.find?_insert_self, hsnoc]
      have hne : (contribList ctx.settings key a' pre ++ [(sln, settings_list)]).isEmpty
          = false := by simp
      rw [hne]
      simp only [Bool.false_eq_true, if_false]
      rw [hfilter]
    · rw [Dict.find?_insert_ne _ a a' _ haa, hsets₁ a' haa, hsnoc_ne a' haa]
      exact hinv.sets_char a'

theorem intersectionStep_inv (init_record : ConfigKey → SettingsRecord) (key : String)
    (ctx : Context) (pre : List (ConfigKey × ConfigKey)) (st st' : MergePassState)
    (sln m : ConfigKey) (hinv : PassInv ctx key pre st)
    (hfresh : sln ∉ pre.map Prod.fst)
    (hstep : intersectionStep init_record key st (sln, m) = some st') :
    PassInv ctx key (pre ++ [(sln, m)]) st' := by
  simp only [intersectionStep] at hstep
  split at hstep
  · exact absurd hstep (by simp)
  · rename_i record hfm
    split at hstep
    · rename_i hkey2
      have hnon : ∀ a' : String, contribList ctx.settings key a' [(sln, m)] = [] := by
        intro a'
        apply contribList_singleton_none
        rintro ⟨-, h2, r, hr, hrs⟩
        have horig : Dict.find? ctx.settings m = some record := by
          rw [← hinv.settings_concrete m h2,
            ← ensure_wildcard_record_concrete init_record st.ctx sln.2 m h2]
          exact hfm
        rw [horig] at hr
        injection hr with hr
        subst hr
        rw [hkey2] at hrs
        simp at hrs
      injection hstep with hstep
      rw [← hstep]
      exact PassInv_extend_noncontrib init_record ctx key pre st sln m hinv hnon
    · rename_i settings_list hkey2
      split at hstep
      · rename_i hm1
        have hnon : ∀ a' : String, contribList ctx.settings key a' [(sln, m)] = [] := by
          intro a'
          apply contribList_singleton_none
          rintro ⟨-, h2, -⟩
          rw [hm1] at h2
          simp at h2
        injection hstep with hstep
        rw [← hstep]
        exact PassInv_extend_noncontrib init_record ctx key pre st sln m hinv hnon
      · rename_i c hm1
        split at hstep
        · exact absurd hstep (by simp)
        · rename_i a harch
          split at hstep
          · exact absurd hstep (by simp)
          · rename_i s hs
            injection hstep with hstep
            have hm1' : m.1.isSome = true := by rw [hm1]; rfl
            have hrecord : Dict.find? ctx.settings m = some record := by
              rw [← hinv.settings_concrete m hm1',
                ← ensure_wildcard_record_concrete init_record st.ctx sln.2 m hm1']
              exact hfm
            have hfind_l :
                Dict.find? (ensure_arch_entry st.lists_of_items_to_merge sln.2) a
                  = some ((Dict.find? st.lists_of_items_to_merge a).getD []) := by
              rw [harch]
              exact ensure_arch_entry_find_self _ a
            have hgetd : (Dict.find? st.lists_of_items_to_merge a).getD []
                = contribList ctx.settings key a pre := by
              rw [hinv.lists_char a]
              cases hpre : pre.any (fun e => e.1.2 = some a) with
              | true => simp
              | false => simp [contribList_empty_of_not_any ctx.settings key a pre hpre]
            have hmatch :
                (match Dict.find? (ensure_arch_entry st.lists_of_items_to_merge sln.2) a with
                  | some d => d
                  | none => []) = contribList ctx.settings key a pre := by
              rw [hfind_l]
              exact hgetd
            rw [hmatch] at hs hstep
            rw [← hstep]
            have hsnoc : contribList ctx.settings key a (pre ++ [(sln, m)]) =
                contribList ctx.settings key a pre ++ [(sln, settings_list)] := by
              rw [contribList_append,
                contribList_singleton_some ctx.settings key a (sln, m) record settings_list
                  harch hm1' hrecord hkey2]
            by_cases hemp : contribList ctx.settings key a pre = []
            · have hif :
                  (if (contribList ctx.settings key a pre).isEmpty = true then
                    Dict.insert st.set_of_items a settings_list.dedup
                  else st.set_of_items) =
                    Dict.insert st.set_of_items a settings_list.dedup := by
                rw [hemp]
                simp
              rw [hif] at hs ⊢
              rw [Dict.find?_insert_self] at hs
              injection hs with hs
              subst hs
              refine PassInv_extend_contrib init_record ctx key pre st sln m a record
                settings_list settings_list.dedup
                (Dict.insert st.set_of_items a settings_list.dedup)
                hinv hfresh harch hm1' hrecord hkey2 ?_ ?_
              · rw [hsnoc, hemp]
                simp [interOf]
              · intro a' ha'
                exact Dict.find?_insert_ne _ a a' _ ha'
            · have hempf : (contribList ctx.settings key a pre).isEmpty = false := by
                cases hx : contribList ctx.settings key a pre with
                | nil => exact absurd hx hemp
                | cons q t => simp
              have hif :
                  (if (contribList ctx.settings key a pre).isEmpty = true then
                    Dict.insert st.set_of_items a settings_list.dedup
                  else st.set_of_items) = st.set_of_items := by
                rw [hempf]
                simp
              rw [hif] at hs ⊢
              have hsval : s
                  = interOf ((contribList ctx.settings key a pre).map Prod.snd) := by
                have hch := hinv.sets_char a
                rw [hempf] at hch
                simp only [Bool.false_eq_true, if_false] at hch
                rw [hch] at hs
                injection hs with hs
                exact hs.symm
              refine PassInv_extend_contrib init_record ctx key pre st sln m a record
                settings_list s st.set_of_items
                hinv hfresh harch hm1' hrecord hkey2 ?_ ?_
              · rw [hsnoc, List.map_append]
                simp only [List.map_cons, List.map_nil]
                rw [interOf_snoc]
                have hmne : ((contribList ctx.settings key a pre).map Prod.snd).isEmpty
                    = false := by
                  cases hx : contribList ctx.settings key a pre with
                  | nil => exact absurd hx hemp
                  | cons q t => simp
                rw [hmne]
                simp only [Bool.false_eq_true, if_false, List.map_cons, List.map_nil]
                rw [hsval]
              · intro a' ha'
                rfl

theorem PassInv_start (ctx : Context) (key : String) (hwf : Dict.WF ctx.settings) :
    PassInv ctx key [] ⟨ctx, [], []⟩ := by
  refine ⟨rfl, fun c _ => rfl, by simp, hwf, by simp [Dict.WF], ?_, ?_⟩
  · intro a
    simp [contribList]
  · intro a
    simp [contribList]

theorem pass_foldlM_inv (init_record : ConfigKey → SettingsRecord) (key : String)
    (ctx : Context) :
    ∀ (rest pre : List (ConfigKey × ConfigKey)) (st st' : MergePassState),
      PassInv ctx key pre st →
      ((pre ++ rest).map Prod.fst).Nodup →
      List.foldlM (intersectionStep init_record key) st rest = some st' →
      PassInv ctx key (pre ++ rest) st' := by
  intro rest
  induction rest with
  | nil =>
    intro pre st st' hinv _ hfold
    simp only [List.foldlM_nil] at hfold
    injection hfold with hfold
    rw [← hfold]
    simpa using hinv
  | cons e t ih =>
    intro pre st st' hinv hnodup hfold
    rw [List.foldlM_cons] at hfold
    cases hstep : intersectionStep init_record key st e with
    | none =>
      rw [hstep] at hfold
      simp at hfold
    | some st₁ =>
      rw [hstep] at hfold
      simp only [Option.bind_eq_bind, Option.some_bind] at hfold
      have hfresh : e.1 ∉ pre.map Prod.fst := by
        intro hmem
        rw [List.map_append] at hnodup
        rcases List.nodup_append.mp hnodup with ⟨-, -, hdisj⟩
        exact hdisj hmem (by simp)
      obtain ⟨sln, m⟩ := e
      have hinv₁ :=
        intersectionStep_inv init_record key ctx pre st st₁ sln m hinv hfresh hstep
      have hres := ih (pre ++ [(sln, m)]) st₁ st' hinv₁
        (by simpa [List.append_assoc] using hnodup) hfold
      simpa [List.append_assoc] using hres

/-- The invariant holds of the full intersection pass of `merge_key`. -/
theorem pass_inv (init_record : ConfigKey → SettingsRecord) (key : String)
    (ctx : Context) (st' : MergePassState)
    (hwf : Dict.WF ctx.settings) (hwfm : Dict.WF ctx.sln_configurations_map)
    (hfold : List.foldlM (intersectionStep init_record key) ⟨ctx, [], []⟩
      ctx.sln_configurations_map = some st') :
    PassInv ctx key ctx.sln_configurations_map st' := by
  have hres := pass_foldlM_inv init_record key ctx ctx.sln_configurations_map []
    ⟨ctx, [], []⟩ st' (PassInv_start ctx key hwf) (by simpa using hwfm) hfold
  simpa using hres

/-! ### More supporting lemmas -/

theorem Dict.insert_eq_self {α β : Type} [DecidableEq α] (d : Dict α β) (k : α)
    (v : β) (h : Dict.find? d k = some v) : Dict.insert d k v = d := by
  have hc : Dict.contains d k = true := by simp [Dict.contains, h]
  unfold Dict.insert
  rw [if_pos hc]
  clear hc
  induction d with
  | nil => simp [Dict.find?] at h
  | cons p d ih =>
    obtain ⟨k', v'⟩ := p
    by_cases hk : k' = k
    · subst hk
      simp only [Dict.find?_cons, if_pos rfl] at h
      injection h with h
      simp [Dict.replace, h]
    · simp only [Dict.find?_cons, if_neg hk] at h
      simp [Dict.replace, hk, ih h]

theorem filterCommon_empty_set (l : List String) : filterCommon l [] = [] := by
  induction l with
  | nil => rfl
  | cons e t ih => simp [filterCommon, ih]

theorem mem_filterCommon (l : List String) :
    ∀ s : List String, s.Nodup → ∀ v : String,
      (v ∈ filterCommon l s ↔ v ∈ s ∧ v ∈ l) := by
  induction l with
  | nil => intro s _ v; simp [filterCommon]
  | cons e t ih =>
    intro s hs v
    by_cases he : e ∈ s
    · simp only [filterCommon, if_pos he, List.mem_cons]
      rw [ih (s.erase e) (hs.erase e) v]
      constructor
      · rintro (h | ⟨h1, h2⟩)
        · subst h
          exact ⟨he, Or.inl rfl⟩
        · exact ⟨((List.Nodup.mem_erase_iff hs).mp h1).2, Or.inr h2⟩
      · rintro ⟨h1, h2 | h2⟩
        · exact Or.inl h2
        · by_cases hv : v = e
          · exact Or.inl hv
          · exact Or.inr ⟨(List.Nodup.mem_erase_iff hs).mpr ⟨hv, h1⟩, h2⟩
    · simp only [filterCommon, if_neg he, List.mem_cons]
      rw [ih s hs v]
      constructor
      · rintro ⟨h1, h2⟩
        exact ⟨h1, Or.inr h2⟩
      · rintro ⟨h1, h2 | h2⟩
        · subst h2
          exact absurd h1 he
        · exact ⟨h1, h2⟩

theorem nodup_filterCommon (l : List String) :
    ∀ s : List String, s.Nodup → (filterCommon l s).Nodup := by
  induction l with
  | nil => intro s _; simp [filterCommon]
  | cons e t ih =>
    intro s hs
    by_cases he : e ∈ s
    · simp only [filterCommon, if_pos he]
      refine List.nodup_cons.mpr ⟨?_, ih _ (hs.erase e)⟩
      intro hmem
      have := (mem_filterCommon t (s.erase e) (hs.erase e) e).mp hmem
      exact absurd ((List.Nodup.mem_erase_iff hs).mp this.1).1 (by simp)
    · simp only [filterCommon, if_neg he]
      exact ih s hs

theorem count_filterCommon (l : List String) (s : List String) (hs : s.Nodup)
    (v : String) :
    (filterCommon l s).count v = if v ∈ s ∧ v ∈ l then 1 else 0 := by
  by_cases h : v ∈ s ∧ v ∈ l
  · rw [if_pos h]
    exact List.count_eq_one_of_mem (nodup_filterCommon l s hs)
      ((mem_filterCommon l s hs v).mpr h)
  · rw [if_neg h]
    refine List.count_eq_zero_of_not_mem ?_
    intro hmem
    exact h ((mem_filterCommon l s hs v).mp hmem)

theorem le_foldr_max (l : List Nat) (x : Nat) (hx : x ∈ l) : x ≤ l.foldr max 0 := by
  induction l with
  | nil => simp at hx
  | cons y t ih =>
    rcases List.mem_cons.mp hx with h | h
    · subst h
      exact le_max_left _ _
    · exact le_trans (ih h) (le_max_right _ _)

theorem mem_get_order_arch (ls : List (List String)) (l : List String) (v : String)
    (hl : l ∈ ls) (hv : v ∈ l) : v ∈ get_order_arch ls := by
  rcases List.getElem_of_mem hv with ⟨i, hi, hgi⟩
  unfold get_order_arch
  rw [List.mem_flatMap]
  refine ⟨i, ?_, ?_⟩
  · rw [List.mem_range]
    exact lt_of_lt_of_le hi (le_foldr_max _ _ (List.mem_map_of_mem List.length hl))
  · rw [List.mem_filterMap]
    exact ⟨l, hl, by rw [List.getElem?_eq_getElem hi, hgi]⟩

theorem contribList_singleton_cases (settings : Dict ConfigKey SettingsRecord)
    (key : String) (a : String) (e : ConfigKey × ConfigKey) :
    contribList settings key a [e] = [] ∨
      ∃ l, contribList settings key a [e] = [(e.1, l)] := by
  by_cases hcond : e.1.2 = some a ∧ e.2.1.isSome
  · cases hf : Dict.find? settings e.2 with
    | none =>
      left
      unfold contribList
      simp [List.filterMap, if_pos hcond, hf]
    | some r =>
      cases hk : Dict.find? r.lists key with
      | none =>
        left
        unfold contribList
        simp [List.filterMap, if_pos hcond, hf, hk]
      | some l =>
        right
        refine ⟨l, ?_⟩
        unfold contribList
        simp [List.filterMap, if_pos hcond, hf, hk]
  · left
    unfold contribList
    simp [List.filterMap, if_neg hcond]

theorem contribList_mem_arch (settings : Dict ConfigKey SettingsRecord) (key : String)
    (a : String) (entries : List (ConfigKey × ConfigKey)) (p : ConfigKey × List String)
    (hp : p ∈ contribList settings key a entries) : p.1.2 = some a := by
  rcases List.mem_filterMap.mp hp with ⟨e, _, hfe⟩
  by_cases hcond : e.1.2 = some a ∧ e.2.1.isSome
  · rw [if_pos hcond] at hfe
    cases hf : Dict.find? settings e.2 with
    | none => rw [hf] at hfe; simp at hfe
    | some r =>
      rw [hf] at hfe
      rcases Option.map_eq_some'.mp hfe with ⟨l, _, hpl⟩
      rw [← hpl]
      exact hcond.1
  · rw [if_neg hcond] at hfe
    simp at hfe

theorem contribList_fst_nodup (settings : Dict ConfigKey SettingsRecord) (key : String)
    (a : String) (entries : List (ConfigKey × ConfigKey))
    (h : (entries.map Prod.fst).Nodup) :
    ((contribList settings key a entries).map Prod.fst).Nodup := by
  induction entries with
  | nil => simp [contribList]
  | cons e t ih =>
    simp only [List.map_cons, List.nodup_cons] at h
    have hsplit : contribList settings key a (e :: t) =
        contribList settings key a [e] ++ contribList settings key a t := by
      have : e :: t = [e] ++ t := rfl
      rw [this, contribList_append]
    rw [hsplit]
    rcases contribList_singleton_cases settings key a e with hc | ⟨l, hc⟩
    · rw [hc]
      simpa using ih h.2
    · rw [hc]
      simp only [List.map_append, List.map_cons, List.map_nil, List.singleton_append]
      refine List.nodup_cons.mpr ⟨?_, ih h.2⟩
      intro hmem
      exact h.1 (contribList_mem_fst settings key a t e.1 hmem)

theorem update_settings_char (ctx : Context) (sln : ConfigKey) (key : String)
    (v : List String) (ctx' : Context)
    (h : update_settings_at_context ctx sln key v = some ctx') :
    (∀ c : ConfigKey, c ≠ sln →
      Dict.find? ctx'.settings c = Dict.find? ctx.settings c)
    ∧ (∃ r' : SettingsRecord, Dict.find? ctx'.settings sln = some r'
        ∧ Dict.find? r'.lists key = some v
        ∧ (∀ rr : SettingsRecord, Dict.find? ctx.settings sln = some rr →
            r' = { rr with lists := Dict.insert rr.lists key v }))
    ∧ (∀ c : ConfigKey, c ≠ sln →
        Dict.find? ctx'.sln_configurations_map c =
          Dict.find? ctx.sln_configurations_map c)
    ∧ ctx'.messages = ctx.messages
    ∧ ctx'.configurations_to_parse = ctx.configurations_to_parse
    ∧ ctx'.vcxproj_path = ctx.vcxproj_path
    ∧ ctx'.current_setting = ctx.current_setting
    ∧ (Dict.WF ctx.settings → Dict.WF ctx'.settings)
    ∧ (Dict.WF ctx.sln_configurations_map → Dict.WF ctx'.sln_configurations_map) := by
  simp only [update_settings_at_context, Option.bind_eq_bind] at h
  by_cases hc : Dict.contains ctx.settings sln = true
  · rw [if_pos hc] at h
    simp only [Option.some_bind] at h
    rcases (Dict.contains_iff _ _).mp hc with ⟨rr, hrr⟩
    rw [hrr] at h
    simp only [Option.some_bind] at h
    injection h with h
    subst h
    refine ⟨?_, ⟨{ rr with lists := Dict.insert rr.lists key v },
        Dict.find?_insert_self _ _ _, Dict.find?_insert_self _ _ _, ?_⟩,
      ?_, rfl, rfl, rfl, rfl, ?_, ?_⟩
    · intro c hcne
      exact Dict.find?_insert_ne _ _ _ _ hcne
    · intro rr' hrr'
      rw [hrr] at hrr'
      injection hrr' with hrr'
      rw [hrr']
    · intro c hcne
      exact Dict.find?_insert_ne _ _ _ _ hcne
    · intro hwf
      exact Dict.WF_insert _ _ _ hwf
    · intro hwf
      exact Dict.WF_insert _ _ _ hwf
  · rw [if_neg hc] at h
    cases hm : Dict.find? ctx.sln_configurations_map sln with
    | none =>
      rw [hm] at h
      simp at h
    | some mapped =>
      rw [hm] at h
      simp only [Option.some_bind] at h
      cases hr : Dict.find? ctx.settings mapped with
      | none =>
        rw [hr] at h
        simp at h
      | some r0 =>
        rw [hr] at h
        simp only [Option.some_bind] at h
        rw [Dict.find?_insert_self] at h
        simp only [Option.some_bind] at h
        injection h with h
        subst h
        have hcfalse : Dict.find? ctx.settings sln = none := by
          refine (Dict.contains_eq_false_iff _ _).mp ?_
          cases hx : Dict.contains ctx.settings sln
          · rfl
          · exact absurd hx hc
        refine ⟨?_, ⟨{ r0 with lists := Dict.insert r0.lists key v },
            Dict.find?_insert_self _ _ _, Dict.find?_insert_self _ _ _, ?_⟩,
          ?_, rfl, rfl, rfl, rfl, ?_, ?_⟩
        · intro c hcne
          rw [Dict.find?_insert_ne _ _ _ _ hcne, Dict.find?_insert_ne _ _ _ _ hcne]
        · intro rr' hrr'
          rw [hcfalse] at hrr'
          exact absurd hrr' (by simp)
        · intro c hcne
          exact Dict.find?_insert_ne _ _ _ _ hcne
        · intro hwf
          exact Dict.WF_insert _ _ _ (Dict.WF_insert _ _ _ hwf)
        · intro hwf
          exact Dict.WF_insert _ _ _ hwf

theorem remove_inner_go (key : String) (s : List String) :
    ∀ (inner : List (ConfigKey × List String)) (ctx ctx' : Context),
      (inner.map Prod.fst).Nodup →
      List.foldlM
        (fun ctx (q : ConfigKey × List String) =>
          update_settings_at_context ctx q.1 key
            (q.2.filter (fun element => !(element ∈ s : Bool))))
        ctx inner = some ctx' →
      (∀ c : ConfigKey, (∀ q ∈ inner, q.1 ≠ c) →
        Dict.find? ctx'.settings c = Dict.find? ctx.settings c)
      ∧ (∀ c : ConfigKey, (∀ q ∈ inner, q.1 ≠ c) →
        Dict.find? ctx'.sln_configurations_map c =
          Dict.find? ctx.sln_configurations_map c)
      ∧ (∀ q ∈ inner,
          ∃ r', Dict.find? ctx'.settings q.1 = some r' ∧
            Dict.find? r'.lists key =
              some (q.2.filter (fun element => !(element ∈ s : Bool)))
            ∧ (∀ rr, Dict.find? ctx.settings q.1 = some rr →
                r' = { rr with lists := Dict.insert rr.lists key (q.2.filter (fun element => !(element ∈ s : Bool))) }))
      ∧ ctx'.messages = ctx.messages
      ∧ ctx'.configurations_to_parse = ctx.configurations_to_parse
      ∧ ctx'.vcxproj_path = ctx.vcxproj_path
      ∧ ctx'.current_setting = ctx.current_setting
      ∧ (Dict.WF ctx.settings → Dict.WF ctx'.settings)
      ∧ (Dict.WF ctx.sln_configurations_map → Dict.WF ctx'.sln_configurations_map) := by
  intro inner
  induction inner with
  | nil =>
    intro ctx ctx' _ hfold
    simp only [List.foldlM_nil] at hfold
    injection hfold with hfold
    subst hfold
    exact ⟨fun c _ => rfl, fun c _ => rfl, by simp, rfl, rfl, rfl, rfl, id, id⟩
  | cons q t ih =>
    intro ctx ctx' hnodup hfold
    rw [List.foldlM_cons] at hfold
    rw [List.map_cons] at hnodup
    obtain ⟨hnod1, hnod2⟩ := List.nodup_cons.mp hnodup
    cases hupd : update_settings_at_context ctx q.1 key
        (q.2.filter (fun element => !(element ∈ s : Bool))) with
    | none =>
      rw [hupd] at hfold
      simp at hfold
    | some ctx₁ =>
      rw [hupd] at hfold
      simp only [Option.bind_eq_bind, Option.some_bind] at hfold
      obtain ⟨hu_frame, ⟨r', hr'1, hr'2, hr'3⟩, hu_mapframe, hu_msg, hu_ctp,
        hu_path, hu_cur, hu_wfs, hu_wfm⟩ := update_settings_char ctx q.1 key _ ctx₁ hupd
      obtain ⟨hi_frame, hi_mapframe, hi_members, hi_msg, hi_ctp, hi_path, hi_cur,
        hi_wfs, hi_wfm⟩ := ih ctx₁ ctx' hnod2 hfold
      refine ⟨?_, ?_, ?_, by rw [hi_msg, hu_msg], by rw [hi_ctp, hu_ctp],
        by rw [hi_path, hu_path], by rw [hi_cur, hu_cur],
        fun hwf => hi_wfs (hu_wfs hwf), fun hwf => hi_wfm (hu_wfm hwf)⟩
      · intro c hcall
        have hq : q.1 ≠ c := hcall q (List.mem_cons_self _ _)
        have ht : ∀ q' ∈ t, q'.1 ≠ c :=
          fun q' hq' => hcall q' (List.mem_cons_of_mem _ hq')
        rw [hi_frame c ht, hu_frame c (Ne.symm hq)]
      · intro c hcall
        have hq : q.1 ≠ c := hcall q (List.mem_cons_self _ _)
        have ht : ∀ q' ∈ t, q'.1 ≠ c :=
          fun q' hq' => hcall q' (List.mem_cons_of_mem _ hq')
        rw [hi_mapframe c ht, hu_mapframe c (Ne.symm hq)]
      · intro q' hq'
        rcases List.mem_cons.mp hq' with hq' | hq'
        · subst hq'
          refine ⟨r', ?_, hr'2, hr'3⟩
          have ht : ∀ q'' ∈ t, q''.1 ≠ q'.1 := by
            intro q'' hq'' he
            exact hnod1 (he ▸ List.mem_map_of_mem Prod.fst hq'')
          rw [hi_frame q'.1 ht]
          exact hr'1
        · obtain ⟨r'', hr''1, hr''2, hr''3⟩ := hi_members q' hq'
          have hne : q'.1 ≠ q.1 := by
            intro he
            exact hnod1 (he ▸ List.mem_map_of_mem Prod.fst hq')
          refine ⟨r'', hr''1, hr''2, ?_⟩
          intro rr hrr
          refine hr''3 rr ?_
          rw [hu_frame q'.1 hne]
          exact hrr

theorem remove_common_char (key : String) (sets : Dict String (List String)) :
    ∀ (lists : List (String × Dict ConfigKey (List String))) (ctx ctx' : Context),
      (lists.flatMap (fun p => p.2.map Prod.fst)).Nodup →
      remove_common_settings_from_context ctx lists sets key = some ctx' →
      (∀ c : ConfigKey, (∀ p ∈ lists, ∀ q ∈ p.2, q.1 ≠ c) →
        Dict.find? ctx'.settings c = Dict.find? ctx.settings c)
      ∧ (∀ c : ConfigKey, (∀ p ∈ lists, ∀ q ∈ p.2, q.1 ≠ c) →
        Dict.find? ctx'.sln_configurations_map c =
          Dict.find? ctx.sln_configurations_map c)
      ∧ (∀ p ∈ lists, ∀ q ∈ p.2, ∃ s, Dict.find? sets p.1 = some s ∧
          ∃ r', Dict.find? ctx'.settings q.1 = some r' ∧
            Dict.find? r'.lists key =
              some (q.2.filter (fun element => !(element ∈ s : Bool)))
            ∧ (∀ rr, Dict.find? ctx.settings q.1 = some rr →
                r' = { rr with lists := Dict.insert rr.lists key (q.2.filter (fun element => !(element ∈ s : Bool))) }))
      ∧ ctx'.messages = ctx.messages
      ∧ ctx'.configurations_to_parse = ctx.configurations_to_parse
      ∧ ctx'.vcxproj_path = ctx.vcxproj_path
      ∧ ctx'.current_setting = ctx.current_setting
      ∧ (Dict.WF ctx.settings → Dict.WF ctx'.settings)
      ∧ (Dict.WF ctx.sln_configurations_map → Dict.WF ctx'.sln_configurations_map) := by
  intro lists
  induction lists with
  | nil =>
    intro ctx ctx' _ hfold
    simp only [remove_common_settings_from_context, List.foldlM_nil] at hfold
    injection hfold with hfold
    subst hfold
    exact ⟨fun c _ => rfl, fun c _ => rfl, by simp, rfl, rfl, rfl, rfl, id, id⟩
  | cons p t ih =>
    intro ctx ctx' hnodup hfold
    simp only [remove_common_settings_from_context, List.foldlM_cons] at hfold
    rw [List.flatMap_cons] at hnodup
    obtain ⟨hnod1, hnod2, hdisj⟩ := List.nodup_append.mp hnodup
    cases hsets : Dict.find? sets p.1 with
    | none =>
      cases hinner : p.2 with
      | cons q0 t0 =>
        rw [hinner] at hfold
        rw [List.foldlM_cons, hsets] at hfold
        simp at hfold
      | nil =>
        rw [hinner] at hfold
        simp only [List.foldlM_nil, Option.some_bind] at hfold
        obtain ⟨hi_frame, hi_mapframe, hi_members, hi_msg, hi_ctp, hi_path, hi_cur,
          hi_wfs, hi_wfm⟩ := ih ctx ctx' hnod2
            (by simpa only [remove_common_settings_from_context] using hfold)
        refine ⟨?_, ?_, ?_, hi_msg, hi_ctp, hi_path, hi_cur, hi_wfs, hi_wfm⟩
        · intro c hcall
          exact hi_frame c
            (fun p' hp' q hq => hcall p' (List.mem_cons_of_mem _ hp') q hq)
        · intro c hcall
          exact hi_mapframe c
            (fun p' hp' q hq => hcall p' (List.mem_cons_of_mem _ hp') q hq)
        · intro p' hp' q hq
          rcases List.mem_cons.mp hp' with hp' | hp'
          · subst hp'
            rw [hinner] at hq
            simp at hq
          · exact hi_members p' hp' q hq
    | some s =>
      rw [hsets] at hfold
      simp only [Option.bind_eq_bind, Option.some_bind] at hfold
      cases hhead : List.foldlM
          (fun ctx (q : ConfigKey × List String) =>
            update_settings_at_context ctx q.1 key
              (q.2.filter (fun element => !(element ∈ s : Bool))))
          ctx p.2 with
      | none =>
        rw [hhead] at hfold
        simp at hfold
      | some ctx₁ =>
        rw [hhead] at hfold
        simp only [Option.some_bind] at hfold
        obtain ⟨ha_frame, ha_mapframe, ha_members, ha_msg, ha_ctp, ha_path, ha_cur,
          ha_wfs, ha_wfm⟩ := remove_inner_go key s p.2 ctx ctx₁ hnod1 hhead
        obtain ⟨hi_frame, hi_mapframe, hi_members, hi_msg, hi_ctp, hi_path, hi_cur,
          hi_wfs, hi_wfm⟩ := ih ctx₁ ctx' hnod2
            (by simpa only [remove_common_settings_from_context] using hfold)
        refine ⟨?_, ?_, ?_, by rw [hi_msg, ha_msg], by rw [hi_ctp, ha_ctp],
          by rw [hi_path, ha_path], by rw [hi_cur, ha_cur],
          fun hwf => hi_wfs (ha_wfs hwf), fun hwf => hi_wfm (ha_wfm hwf)⟩
        · intro c hcall
          have hp : ∀ q ∈ p.2, q.1 ≠ c :=
            fun q hq => hcall p (List.mem_cons_self _ _) q hq
          have ht : ∀ p' ∈ t, ∀ q ∈ p'.2, q.1 ≠ c :=
            fun p' hp' q hq => hcall p' (List.mem_cons_of_mem _ hp') q hq
          rw [hi_frame c ht, ha_frame c hp]
        · intro c hcall
          have hp : ∀ q ∈ p.2, q.1 ≠ c :=
            fun q hq => hcall p (List.mem_cons_self _ _) q hq
          have ht : ∀ p' ∈ t, ∀ q ∈ p'.2, q.1 ≠ c :=
            fun p' hp' q hq => hcall p' (List.mem_cons_of_mem _ hp') q hq
          rw [hi_mapframe c ht, ha_mapframe c hp]
        · intro p' hp' q hq
          rcases List.mem_cons.mp hp' with hp' | hp'
          · subst hp'
            obtain ⟨r', hr'1, hr'2, hr'3⟩ := ha_members q hq
            refine ⟨s, hsets, r', ?_, hr'2, hr'3⟩
            have ht : ∀ p'' ∈ t, ∀ q'' ∈ p''.2, q''.1 ≠ q.1 := by
              intro p'' hp'' q'' hq'' he
              refine hdisj (List.mem_map_of_mem Prod.fst hq) ?_
              rw [← he]
              exact List.mem_flatMap.mpr ⟨p'', hp'', List.mem_map_of_mem Prod.fst hq''⟩
            rw [hi_frame q.1 ht]
            exact hr'1
          · obtain ⟨s', hs', r', hr'1, hr'2, hr'3⟩ := hi_members p' hp' q hq
            have hne : ∀ q'' ∈ p.2, q''.1 ≠ q.1 := by
              intro q'' hq'' he
              refine hdisj (List.mem_map_of_mem Prod.fst hq'') ?_
              rw [he]
              exact List.mem_flatMap.mpr ⟨p', hp', List.mem_map_of_mem Prod.fst hq⟩
            refine ⟨s', hs', r', hr'1, hr'2, ?_⟩
            intro rr hrr
            refine hr'3 rr ?_
            rw [ha_frame q.1 hne]
            exact hrr

theorem Dict.contains_append {α β : Type} [DecidableEq α] (d₁ d₂ : Dict α β) (k : α) :
    Dict.contains (d₁ ++ d₂) k = (Dict.contains d₁ k || Dict.contains d₂ k) := by
  rw [Dict.contains, Dict.find?_append]
  cases h1 : Dict.find? d₁ k <;> cases h2 : Dict.find? d₂ k <;>
    simp [Dict.contains, h1, h2]

theorem get_order_eq_map (l : List (String × Dict ConfigKey (List String))) :
    ∀ acc : Dict String (List String),
      (∀ p ∈ l, Dict.contains acc p.1 = false) →
      (l.map Prod.fst).Nodup →
      l.foldl (fun acc p => Dict.insert acc p.1 (get_order_arch (p.2.map Prod.snd))) acc
        = acc ++ l.map (fun p => (p.1, get_order_arch (p.2.map Prod.snd))) := by
  induction l with
  | nil =>
    intro acc _ _
    simp
  | cons p t ih =>
    intro acc hacc hnodup
    rw [List.map_cons] at hnodup
    obtain ⟨h1, h2⟩ := List.nodup_cons.mp hnodup
    rw [List.foldl_cons]
    have hins : Dict.insert acc p.1 (get_order_arch (p.2.map Prod.snd))
        = acc ++ [(p.1, get_order_arch (p.2.map Prod.snd))] := by
      unfold Dict.insert
      rw [hacc p (List.mem_cons_self _ _)]
      simp
    rw [hins, ih _ ?_ h2]
    · simp
    · intro p' hp'
      rw [Dict.contains_append, hacc p' (List.mem_cons_of_mem _ hp')]
      have hne : ¬ p.1 = p'.1 :=
        fun he => h1 (he ▸ List.mem_map_of_mem Prod.fst hp')
      simp [Dict.contains, Dict.find?, hne]

theorem get_order_of_common_settings_eq (lists : Dict String (Dict ConfigKey (List String)))
    (hwf : Dict.WF lists) :
    get_order_of_common_settings lists
      = lists.map (fun p => (p.1, get_order_arch (p.2.map Prod.snd))) := by
  unfold get_order_of_common_settings
  rw [get_order_eq_map lists [] (fun p _ => rfl) hwf]
  simp

theorem get_common_go (sets : Dict String (List String)) :
    ∀ (mo : List (String × List String)) (acc m : Dict String (List String)),
      (mo.map Prod.fst).Nodup →
      List.foldlM
        (fun acc (p : String × List String) =>
          match p.2 with
          | [] => some (Dict.insert acc p.1 [])
          | element :: rest => do
              let s ← Dict.find? sets p.1
              some (Dict.insert acc p.1
                ((common_ordered_loop (!sets.isEmpty) s [] (element :: rest)).1)))
        acc mo = some m →
      (∀ a, a ∉ mo.map Prod.fst → Dict.find? m a = Dict.find? acc a)
      ∧ (∀ p ∈ mo, (p.2 = [] ∧ Dict.find? m p.1 = some []) ∨
          (∃ s, Dict.find? sets p.1 = some s ∧ p.2 ≠ [] ∧
            Dict.find? m p.1 = some ((common_ordered_loop (!sets.isEmpty) s [] p.2).1)))
      ∧ (Dict.WF acc → Dict.WF m) := by
  intro mo
  induction mo with
  | nil =>
    intro acc m _ hfold
    simp only [List.foldlM_nil] at hfold
    injection hfold with hfold
    subst hfold
    exact ⟨fun a _ => rfl, by simp, id⟩
  | cons p t ih =>
    intro acc m hnodup hfold
    rw [List.map_cons] at hnodup
    obtain ⟨h1, h2⟩ := List.nodup_cons.mp hnodup
    rw [List.foldlM_cons] at hfold
    cases hp2 : p.2 with
    | nil =>
      rw [hp2] at hfold
      simp only [Option.bind_eq_bind, Option.some_bind] at hfold
      obtain ⟨hi_frame, hi_members, hi_wf⟩ := ih (Dict.insert acc p.1 []) m h2 hfold
      refine ⟨?_, ?_, ?_⟩
      · intro a ha
        simp only [List.map_cons, List.mem_cons] at ha
        push_neg at ha
        rw [hi_frame a ha.2, Dict.find?_insert_ne _ _ _ _ ha.1]
      · intro p' hp'
        rcases List.mem_cons.mp hp' with hp' | hp'
        · subst hp'
          left
          refine ⟨hp2, ?_⟩
          rw [hi_frame p'.1 h1, Dict.find?_insert_self]
        · exact hi_members p' hp'
      · intro hwf
        exact hi_wf (Dict.WF_insert _ _ _ hwf)
    | cons e rest =>
      rw [hp2] at hfold
      cases hs : Dict.find? sets p.1 with
      | none =>
        rw [hs] at hfold
        simp at hfold
      | some s =>
        rw [hs] at hfold
        simp only [Option.bind_eq_bind, Option.some_bind] at hfold
        obtain ⟨hi_frame, hi_members, hi_wf⟩ := ih _ m h2 hfold
        refine ⟨?_, ?_, ?_⟩
        · intro a ha
          simp only [List.map_cons, List.mem_cons] at ha
          push_neg at ha
          rw [hi_frame a ha.2, Dict.find?_insert_ne _ _ _ _ ha.1]
        · intro p' hp'
          rcases List.mem_cons.mp hp' with hp' | hp'
          · subst hp'
            right
            refine ⟨s, hs, by rw [hp2]; simp, ?_⟩
            rw [hi_frame p'.1 h1, Dict.find?_insert_self, hp2]
          · exact hi_members p' hp'
        · intro hwf
          exact hi_wf (Dict.WF_insert _ _ _ hwf)

theorem commit_merged_char (key : String) :
    ∀ (merged : List (String × List String)) (ctx ctx' : Context),
      (merged.map Prod.fst).Nodup →
      commit_merged_settings ctx merged key = some ctx' →
      (∀ c : ConfigKey, (∀ a ∈ merged.map Prod.fst, c ≠ (none, some a)) →
        Dict.find? ctx'.settings c = Dict.find? ctx.settings c)
      ∧ (∀ p ∈ merged, ∃ r', Dict.find? ctx'.settings (none, some p.1) = some r'
          ∧ Dict.find? r'.lists key = some p.2)
      ∧ ctx'.messages = ctx.messages
      ∧ ctx'.configurations_to_parse = ctx.configurations_to_parse
      ∧ ctx'.vcxproj_path = ctx.vcxproj_path
      ∧ ctx'.current_setting = ctx.current_setting
      ∧ (Dict.WF ctx.settings → Dict.WF ctx'.settings) := by
  intro merged
  induction merged with
  | nil =>
    intro ctx ctx' _ hfold
    simp only [commit_merged_settings, List.foldlM_nil] at hfold
    injection hfold with hfold
    subst hfold
    exact ⟨fun c _ => rfl, by simp, rfl, rfl, rfl, rfl, id⟩
  | cons p t ih =>
    intro ctx ctx' hnodup hfold
    rw [List.map_cons] at hnodup
    obtain ⟨h1, h2⟩ := List.nodup_cons.mp hnodup
    simp only [commit_merged_settings, List.foldlM_cons] at hfold
    cases hr : Dict.find? ctx.settings (none, some p.1) with
    | none =>
      rw [hr] at hfold
      simp at hfold
    | some r =>
      rw [hr] at hfold
      simp only [Option.bind_eq_bind, Option.some_bind] at hfold
      obtain ⟨hi_frame, hi_members, hi_msg, hi_ctp, hi_path, hi_cur, hi_wf⟩ :=
        ih _ ctx' h2 (by simpa only [commit_merged_settings] using hfold)
      refine ⟨?_, ?_, by rw [hi_msg], by rw [hi_ctp], by rw [hi_path],
        by rw [hi_cur], ?_⟩
      · intro c hcall
        have hp : c ≠ (none, some p.1) := hcall p.1 (List.mem_cons_self _ _)
        have ht : ∀ a ∈ t.map Prod.fst, c ≠ (none, some a) :=
          fun a ha => hcall a (List.mem_cons_of_mem _ ha)
        rw [hi_frame c ht]
        exact Dict.find?_insert_ne _ _ _ _ hp
      · intro p' hp'
        rcases List.mem_cons.mp hp' with hp' | hp'
        · subst hp'
          refine ⟨{ r with lists := Dict.insert r.lists key p'.2 }, ?_,
            Dict.find?_insert_self _ _ _⟩
          have ht : ∀ a ∈ t.map Prod.fst, (none, some p'.1) ≠ ((none, some a) : ConfigKey) := by
            intro a ha he
            have : p'.1 = a := by
              have := congrArg Prod.snd he
              simpa using this
            exact h1 (this ▸ ha)
          rw [hi_frame _ ht]
          exact Dict.find?_insert_self _ _ _
        · exact hi_members p' hp'
      · intro hwf
        exact hi_wf (Dict.WF_insert _ _ _ hwf)

theorem contribList_exists_entry (settings : Dict ConfigKey SettingsRecord)
    (key : String) (a : String) (entries : List (ConfigKey × ConfigKey))
    (q : ConfigKey × List String) (hq : q ∈ contribList settings key a entries) :
    ∃ e ∈ entries, e.1 = q.1 ∧ e.1.2 = some a ∧ e.2.1.isSome = true ∧
      ∃ r, Dict.find? settings e.2 = some r ∧ Dict.find? r.lists key = some q.2 := by
  rcases List.mem_filterMap.mp hq with ⟨e, he, hfe⟩
  by_cases hcond : e.1.2 = some a ∧ e.2.1.isSome
  · rw [if_pos hcond] at hfe
    cases hf : Dict.find? settings e.2 with
    | none =>
      rw [hf] at hfe
      simp at hfe
    | some r =>
      rw [hf] at hfe
      rcases Option.map_eq_some'.mp hfe with ⟨l, hl, hql⟩
      refine ⟨e, he, ?_, hcond.1, hcond.2, r, hf, ?_⟩
      · rw [← hql]
      · rw [hl, ← hql]
  · rw [if_neg hcond] at hfe
    simp at hfe

theorem contribList_any (settings : Dict ConfigKey SettingsRecord) (key : String)
    (a : String) (entries : List (ConfigKey × ConfigKey))
    (h : contribList settings key a entries ≠ []) :
    entries.any (fun e => e.1.2 = some a) = true := by
  cases hx : contribList settings key a entries with
  | nil => exact absurd hx h
  | cons q t =>
    obtain ⟨e, he, -, harch, -⟩ :=
      contribList_exists_entry settings key a entries q (hx ▸ List.mem_cons_self _ _)
    rw [List.any_eq_true]
    exact ⟨e, he, by simp [harch]⟩

theorem contrib_fst_isSome (settings : Dict ConfigKey SettingsRecord) (key : String)
    (a : String) (entries : List (ConfigKey × ConfigKey))
    (hwild : ∀ e ∈ entries, e.1.1 = none → e.2.1 = none)
    (q : ConfigKey × List String) (hq : q ∈ contribList settings key a entries) :
    q.1.1.isSome = true := by
  obtain ⟨e, he, hfst, -, hm1x, -⟩ := contribList_exists_entry settings key a entries q hq
  rw [← hfst]
  cases hx : e.1.1 with
  | some c => rfl
  | none =>
    have := hwild e he hx
    rw [this] at hm1x
    simp at hm1x

theorem contrib_mem_contributorKeys (settings : Dict ConfigKey SettingsRecord)
    (key : String) (a : String) (entries : List (ConfigKey × ConfigKey))
    (q : ConfigKey × List String) (hq : q ∈ contribList settings key a entries) :
    q.1 ∈ contributorKeys settings key entries := by
  obtain ⟨e, he, hfst, harch, hm1, r, hr, hrk⟩ :=
    contribList_exists_entry settings key a entries q hq
  unfold contributorKeys
  refine List.mem_map.mpr ⟨e, List.mem_filter.mpr ⟨he, ?_⟩, hfst⟩
  unfold isContributor
  rw [hr]
  simp [harch, hm1, Dict.contains, hrk]

theorem lists_flat_nodup (settings : Dict ConfigKey SettingsRecord) (key : String)
    (entries : List (ConfigKey × ConfigKey))
    (hwfm : (entries.map Prod.fst).Nodup) :
    ∀ ls : List (String × Dict ConfigKey (List String)),
      (ls.map Prod.fst).Nodup →
      (∀ p ∈ ls, p.2 = contribList settings key p.1 entries) →
      (ls.flatMap (fun p => p.2.map Prod.fst)).Nodup := by
  intro ls
  induction ls with
  | nil =>
    intro _ _
    simp
  | cons p t ih =>
    intro hnodup hval
    rw [List.flatMap_cons]
    rw [List.map_cons] at hnodup
    obtain ⟨h1, h2⟩ := List.nodup_cons.mp hnodup
    refine List.nodup_append.mpr
      ⟨?_, ih h2 (fun p' hp' => hval p' (List.mem_cons_of_mem _ hp')), ?_⟩
    · rw [hval p (List.mem_cons_self _ _)]
      exact contribList_fst_nodup settings key p.1 entries hwfm
    · intro x hx hx2
      rw [hval p (List.mem_cons_self _ _)] at hx
      rcases List.mem_map.mp hx with ⟨q, hq, hqx⟩
      have harch1 : q.1.2 = some p.1 := contribList_mem_arch settings key p.1 entries q hq
      rcases List.mem_flatMap.mp hx2 with ⟨p', hp', hx'⟩
      rw [hval p' (List.mem_cons_of_mem _ hp')] at hx'
      rcases List.mem_map.mp hx' with ⟨q', hq', hq'x⟩
      have harch2 : q'.1.2 = some p'.1 := contribList_mem_arch settings key p'.1 entries q' hq'
      have hq1 : q.1 = q'.1 := by rw [hqx, hq'x]
      rw [hq1, harch2] at harch1
      injection harch1 with hpp
      exact h1 (hpp ▸ List.mem_map_of_mem Prod.fst hp')

/-- Master characterization of `merge_data_settings` run for one mergeable key:
the store is untouched at concrete non-contributing keys, and for every
architecture with at least one contributing configuration the computed
intersection set, the hoisted common list and the residual lists are exactly
the ones described by `contribList`, `interOf`, `get_order_arch` and
`filterCommon`. -/
theorem merge_key_main (init_record : ConfigKey → SettingsRecord) (key : String)
    (ctx ctx' : Context)
    (hwfs : Dict.WF ctx.settings)
    (hwfm : Dict.WF ctx.sln_configurations_map)
    (hwild : ∀ e ∈ ctx.sln_configurations_map, e.1.1 = none → e.2.1 = none)
    (hrun : DataConverter.merge_data_settings init_record [key] ctx = some ctx') :
    (∀ c : ConfigKey, c.1.isSome = true →
      c ∉ contributorKeys ctx.settings key ctx.sln_configurations_map →
      Dict.find? ctx'.settings c = Dict.find? ctx.settings c)
    ∧ ∀ a : String,
        contribList ctx.settings key a ctx.sln_configurations_map ≠ [] →
        ∃ s common : List String,
          s.Nodup
          ∧ (∀ v, v ∈ s ↔
              ∀ q ∈ contribList ctx.settings key a ctx.sln_configurations_map, v ∈ q.2)
          ∧ common = filterCommon
              (get_order_arch
                ((contribList ctx.settings key a ctx.sln_configurations_map).map Prod.snd))
              s
          ∧ common.Nodup
          ∧ (∀ v, v ∈ common ↔
              ∀ q ∈ contribList ctx.settings key a ctx.sln_configurations_map, v ∈ q.2)
          ∧ (∀ v ∈ s, v ∈ get_order_arch
              ((contribList ctx.settings key a ctx.sln_configurations_map).map Prod.snd))
          ∧ (∃ r, Dict.find? ctx'.settings (none, some a) = some r
              ∧ Dict.find? r.lists key = some common)
          ∧ (∀ q ∈ contribList ctx.settings key a ctx.sln_configurations_map,
              ∃ r', Dict.find? ctx'.settings q.1 = some r'
                ∧ Dict.find? r'.lists key = some (q.2.filter (fun v => !(v ∈ s : Bool)))
                ∧ (∀ rr, Dict.find? ctx.settings q.1 = some rr →
                    r' = { rr with lists := Dict.insert rr.lists key (q.2.filter (fun v => !(v ∈ s : Bool))) })) := by
  have hrun' : DataConverter.merge_key init_record ctx key = some ctx' := by
    unfold DataConverter.merge_data_settings at hrun
    rw [List.foldlM_cons] at hrun
    cases hmk : DataConverter.merge_key init_record ctx key with
    | none =>
      rw [hmk] at hrun
      simp at hrun
    | some c =>
      rw [hmk] at hrun
      simp only [Option.bind_eq_bind, Option.some_bind, List.foldlM_nil] at hrun
      exact hrun ▸ rfl
  clear hrun
  simp only [DataConverter.merge_key, Option.bind_eq_bind] at hrun'
  cases hpass : List.foldlM (DataConverter.intersectionStep init_record key)
      ⟨ctx, [], []⟩ ctx.sln_configurations_map with
  | none =>
    rw [hpass] at hrun'
    simp at hrun'
  | some st =>
  rw [hpass] at hrun'
  simp only [Option.some_bind] at hrun'
  cases hrem : DataConverter.remove_common_settings_from_context st.ctx
      st.lists_of_items_to_merge st.set_of_items key with
  | none =>
    rw [hrem] at hrun'
    simp at hrun'
  | some ctx₂ =>
  rw [hrem] at hrun'
  simp only [Option.some_bind] at hrun'
  cases hgc : DataConverter.get_common_ordered_settings
      (DataConverter.get_order_of_common_settings st.lists_of_items_to_merge)
      st.set_of_items with
  | none =>
    rw [hgc] at hrun'
    simp at hrun'
  | some merged =>
  rw [hgc] at hrun'
  simp only [Option.some_bind] at hrun'
  have hinv := pass_inv init_record key ctx st hwfs hwfm hpass
  have hlists_val : ∀ p ∈ st.lists_of_items_to_merge,
      p.2 = contribList ctx.settings key p.1 ctx.sln_configurations_map := by
    intro p hp
    have hf := Dict.find?_eq_some_of_mem st.lists_of_items_to_merge p.1 p.2
      hinv.lists_wf (Prod.mk.eta ▸ hp)
    rw [hinv.lists_char p.1] at hf
    by_cases hany : ctx.sln_configurations_map.any (fun e => e.1.2 = some p.1) = true
    · rw [if_pos hany] at hf
      injection hf with hf
      exact hf.symm
    · rw [if_neg hany] at hf
      cases hf
  have hflat := lists_flat_nodup ctx.settings key ctx.sln_configurations_map hwfm
    st.lists_of_items_to_merge hinv.lists_wf hlists_val
  obtain ⟨hrem_frame, hrem_mapframe, hrem_members, hrem_msg, hrem_ctp, hrem_path,
    hrem_cur, hrem_wfs, hrem_wfm⟩ :=
    remove_common_char key st.set_of_items st.lists_of_items_to_merge st.ctx ctx₂
      hflat hrem
  have hgo := get_order_of_common_settings_eq st.lists_of_items_to_merge hinv.lists_wf
  rw [hgo] at hgc
  have hmo_nodup : ((st.lists_of_items_to_merge.map
      (fun p => (p.1, get_order_arch (p.2.map Prod.snd)))).map Prod.fst).Nodup := by
    have heq : (st.lists_of_items_to_merge.map
        (fun p => (p.1, get_order_arch (p.2.map Prod.snd)))).map Prod.fst
        = st.lists_of_items_to_merge.map Prod.fst := by
      rw [List.map_map]
      rfl
    rw [heq]
    exact hinv.lists_wf
  obtain ⟨hgc_frame, hgc_members, hgc_wf⟩ := get_common_go st.set_of_items
    (st.lists_of_items_to_merge.map (fun p => (p.1, get_order_arch (p.2.map Prod.snd))))
    [] merged hmo_nodup
    (by simpa only [DataConverter.get_common_ordered_settings] using hgc)
  have hmerged_wf : Dict.WF merged := hgc_wf (by simp [Dict.WF])
  obtain ⟨hcm_frame, hcm_members, hcm_msg, hcm_ctp, hcm_path, hcm_cur, hcm_wf⟩ :=
    commit_merged_char key merged ctx₂ ctx' hmerged_wf hrun'
  constructor
  · intro c hcsome hcnotin
    have h1 : ∀ a ∈ merged.map Prod.fst, c ≠ ((none, some a) : ConfigKey) := by
      intro a _ he
      rw [he] at hcsome
      simp at hcsome
    rw [hcm_frame c h1]
    have h2 : ∀ p ∈ st.lists_of_items_to_merge, ∀ q ∈ p.2, q.1 ≠ c := by
      intro p hp q hq he
      rw [hlists_val p hp] at hq
      exact hcnotin (he ▸ contrib_mem_contributorKeys ctx.settings key p.1
        ctx.sln_configurations_map q hq)
    rw [hrem_frame c h2]
    exact hinv.settings_concrete c hcsome
  · intro a hane
    have hanyt : ctx.sln_configurations_map.any (fun e => e.1.2 = some a) = true :=
      contribList_any ctx.settings key a ctx.sln_configurations_map hane
    have hfl : Dict.find? st.lists_of_items_to_merge a
        = some (contribList ctx.settings key a ctx.sln_configurations_map) := by
      rw [hinv.lists_char a, if_pos hanyt]
    have hmem_l : (a, contribList ctx.settings key a ctx.sln_configurations_map)
        ∈ st.lists_of_items_to_merge :=
      Dict.mem_of_find?_eq_some _ _ _ hfl
    have hempf : (contribList ctx.settings key a ctx.sln_configurations_map).isEmpty
        = false := by
      cases hx : contribList ctx.settings key a ctx.sln_configurations_map with
      | nil => exact absurd hx hane
      | cons q t => simp
    have hfs : Dict.find? st.set_of_items a = some (interOf
        ((contribList ctx.settings key a ctx.sln_configurations_map).map Prod.snd)) := by
      rw [hinv.sets_char a, hempf]
      simp only [Bool.false_eq_true, if_false]
    have hSnodup : (interOf ((contribList ctx.settings key a
        ctx.sln_configurations_map).map Prod.snd)).Nodup := nodup_interOf _
    have hmapne : (contribList ctx.settings key a
        ctx.sln_configurations_map).map Prod.snd ≠ [] := by
      cases hx : contribList ctx.settings key a ctx.sln_configurations_map with
      | nil => exact absurd hx hane
      | cons q t => simp
    have hSmem : ∀ v, v ∈ interOf ((contribList ctx.settings key a
        ctx.sln_configurations_map).map Prod.snd) ↔
        ∀ q ∈ contribList ctx.settings key a ctx.sln_configurations_map, v ∈ q.2 := by
      intro v
      rw [mem_interOf _ hmapne v]
      constructor
      · intro h q hq
        exact h q.2 (List.mem_map_of_mem Prod.snd hq)
      · intro h l hl
        rcases List.mem_map.mp hl with ⟨q, hq, hql⟩
        exact hql ▸ h q hq
    have hcover : ∀ v ∈ interOf ((contribList ctx.settings key a
        ctx.sln_configurations_map).map Prod.snd),
        v ∈ get_order_arch ((contribList ctx.settings key a
          ctx.sln_configurations_map).map Prod.snd) := by
      intro v hv
      cases hx : contribList ctx.settings key a ctx.sln_configurations_map with
      | nil => exact absurd hx hane
      | cons q t =>
        refine mem_get_order_arch _ q.2 v ?_ ?_
        · simp
        · exact (hSmem v).mp hv q (hx ▸ List.mem_cons_self _ _)
    have hmem_mo : (a, get_order_arch ((contribList ctx.settings key a
        ctx.sln_configurations_map).map Prod.snd))
        ∈ st.lists_of_items_to_merge.map
          (fun p => (p.1, get_order_arch (p.2.map Prod.snd))) :=
      List.mem_map.mpr ⟨_, hmem_l, rfl⟩
    have hsetsne : (!st.set_of_items.isEmpty) = true := by
      cases hset : st.set_of_items with
      | nil =>
        rw [hset] at hfs
        simp at hfs
      | cons x d => simp [List.isEmpty]
    have hcommon : Dict.find? merged a = some (filterCommon
        (get_order_arch ((contribList ctx.settings key a
          ctx.sln_configurations_map).map Prod.snd))
        (interOf ((contribList ctx.settings key a
          ctx.sln_configurations_map).map Prod.snd))) := by
      rcases hgc_members _ hmem_mo with ⟨hnil, hfind⟩ | ⟨s', hs', hne, hfind⟩
      · simp only at hnil hfind
        rw [hnil, hfind]
        rfl
      · simp only at hs' hne hfind
        rw [hfs] at hs'
        injection hs' with hs'
        rw [hsetsne] at hfind
        rw [hfind, common_ordered_loop_fst, List.nil_append, hs']
    refine ⟨interOf ((contribList ctx.settings key a
        ctx.sln_configurations_map).map Prod.snd),
      filterCommon (get_order_arch ((contribList ctx.settings key a
        ctx.sln_configurations_map).map Prod.snd))
        (interOf ((contribList ctx.settings key a
          ctx.sln_configurations_map).map Prod.snd)),
      hSnodup, hSmem, rfl, nodup_filterCommon _ _ hSnodup, ?_, hcover, ?_, ?_⟩
    · intro v
      rw [mem_filterCommon _ _ hSnodup v]
      constructor
      · intro h
        exact (hSmem v).mp h.1
      · intro h
        have hvS := (hSmem v).mpr h
        exact ⟨hvS, hcover v hvS⟩
    · obtain ⟨r, hr1, hr2⟩ := hcm_members _ (Dict.mem_of_find?_eq_some _ _ _ hcommon)
      exact ⟨r, hr1, hr2⟩
    · intro q hq
      obtain ⟨s', hs', r', hr'1, hr'2, hr'3⟩ := hrem_members _ hmem_l q hq
      simp only at hs'
      rw [hfs] at hs'
      injection hs' with hs'
      subst hs'
      have hqsome : q.1.1.isSome = true := contrib_fst_isSome ctx.settings key a
        ctx.sln_configurations_map hwild q hq
      have hpres : ∀ a' ∈ merged.map Prod.fst, q.1 ≠ ((none, some a') : ConfigKey) := by
        intro a' _ he
        rw [he] at hqsome
        simp at hqsome
      refine ⟨r', ?_, hr'2, ?_⟩
      · rw [hcm_frame q.1 hpres]
        exact hr'1
      · intro rr hrr
        refine hr'3 rr ?_
        rw [hinv.settings_concrete q.1 hqsome]
        exact hrr

/-- Every contributing solution key is the solution key of some architecture's
contribution list entry. -/
theorem mem_contributorKeys_contrib (settings : Dict ConfigKey SettingsRecord)
    (key : String) (entries : List (ConfigKey × ConfigKey)) (c : ConfigKey)
    (hc : c ∈ contributorKeys settings key entries) :
    ∃ a l, c.2 = some a ∧ (c, l) ∈ contribList settings key a entries := by
  unfold contributorKeys at hc
  rcases List.mem_map.mp hc with ⟨e, he, hec⟩
  rcases List.mem_filter.mp he with ⟨hmem, hcontrib⟩
  unfold isContributor at hcontrib
  rcases (Bool.and_eq_true _ _).mp hcontrib with ⟨h12, h3⟩
  rcases (Bool.and_eq_true _ _).mp h12 with ⟨h1, h2⟩
  rcases Option.isSome_iff_exists.mp h1 with ⟨a, ha⟩
  cases hr : Dict.find? settings e.2 with
  | none =>
    rw [hr] at h3
    simp at h3
  | some r =>
    rw [hr] at h3
    rcases (Dict.contains_iff r.lists key).mp h3 with ⟨l, hl⟩
    refine ⟨a, l, hec ▸ ha, ?_⟩
    refine List.mem_filterMap.mpr ⟨e, hmem, ?_⟩
    rw [if_pos ⟨ha, h2⟩, hr]
    simp [hl, hec]

/-- C1: after `merge_data_settings` on a mergeable key, for every architecture
with at least one contributing configuration, the wildcard entry's common list
holds (each exactly once) exactly the values present in every contributing
configuration's original list, each contributor's residual list is its original
list with exactly the common values filtered out, and the common and residual
lists together reproduce the original list as a set. -/
theorem C1_merge_common_settings (init_record : ConfigKey → SettingsRecord)
    (key : String) (ctx ctx' : Context) (a : String)
    (hwfs : Dict.WF ctx.settings)
    (hwfm : Dict.WF ctx.sln_configurations_map)
    (hwild : ∀ e ∈ ctx.sln_configurations_map, e.1.1 = none → e.2.1 = none)
    (hrun : DataConverter.merge_data_settings init_record [key] ctx = some ctx')
    (hane : contribList ctx.settings key a ctx.sln_configurations_map ≠ []) :
    ∃ common : List String,
      (∃ r, Dict.find? ctx'.settings ((none, some a) : ConfigKey) = some r
        ∧ Dict.find? r.lists key = some common)
      ∧ common.Nodup
      ∧ (∀ v, v ∈ common ↔
          ∀ q ∈ contribList ctx.settings key a ctx.sln_configurations_map, v ∈ q.2)
      ∧ ∀ q ∈ contribList ctx.settings key a ctx.sln_configurations_map,
          ∃ r', Dict.find? ctx'.settings q.1 = some r'
            ∧ Dict.find? r'.lists key
                = some (q.2.filter (fun v => !(v ∈ common : Bool)))
            ∧ ∀ v, (v ∈ common ∨ v ∈ q.2.filter (fun v => !(v ∈ common : Bool)))
                ↔ v ∈ q.2 := by
  obtain ⟨-, hmain⟩ := merge_key_main init_record key ctx ctx' hwfs hwfm hwild hrun
  obtain ⟨s, common, hSnd, hSmem, hceq, hcnd, hcmem, hcover, hwentry, hres⟩ :=
    hmain a hane
  have hsc : ∀ v, v ∈ s ↔ v ∈ common := by
    intro v
    rw [hSmem v, hcmem v]
  have hfilt : ∀ l : List String,
      l.filter (fun v => !(v ∈ s : Bool)) = l.filter (fun v => !(v ∈ common : Bool)) := by
    intro l
    refine List.filter_congr ?_
    intro v _
    exact congrArg Bool.not (decide_eq_decide.mpr (hsc v))
  refine ⟨common, hwentry, hcnd, hcmem, ?_⟩
  intro q hq
  obtain ⟨r', hr'1, hr'2, -⟩ := hres q hq
  refine ⟨r', hr'1, by rw [← hfilt q.2]; exact hr'2, ?_⟩
  intro v
  constructor
  · rintro (hv | hv)
    · exact (hcmem v).mp hv q hq
    · exact (List.mem_filter.mp hv).1
  · intro hv
    by_cases hvc : v ∈ common
    · exact Or.inl hvc
    · refine Or.inr (List.mem_filter.mpr ⟨hv, ?_⟩)
      simp [hvc]

/-- The C1 theorem evaluated on the two-configuration scenario of the spec. -/
theorem C1_merge_common_settings_witness :
    DataConverter.merge_data_settings baseline_init ["cl"] two_config_ctx
        = some two_config_merged_ctx
    ∧ contribList two_config_ctx.settings "cl" "x64"
        two_config_ctx.sln_configurations_map ≠ []
    ∧ ∃ common : List String,
        (∃ r, Dict.find? two_config_merged_ctx.settings
              ((none, some "x64") : ConfigKey) = some r
          ∧ Dict.find? r.lists "cl" = some common)
        ∧ common.Nodup
        ∧ (∀ v, v ∈ common ↔
            ∀ q ∈ contribList two_config_ctx.settings "cl" "x64"
                two_config_ctx.sln_configurations_map, v ∈ q.2)
        ∧ ∀ q ∈ contribList two_config_ctx.settings "cl" "x64"
              two_config_ctx.sln_configurations_map,
            ∃ r', Dict.find? two_config_merged_ctx.settings q.1 = some r'
              ∧ Dict.find? r'.lists "cl"
                  = some (q.2.filter (fun v => !(v ∈ common : Bool)))
              ∧ ∀ v, (v ∈ common ∨ v ∈ q.2.filter (fun v => !(v ∈ common : Bool)))
                  ↔ v ∈ q.2 :=
  ⟨by decide, by decide,
    C1_merge_common_settings baseline_init "cl" two_config_ctx two_config_merged_ctx
      "x64" (by unfold Dict.WF; decide) (by unfold Dict.WF; decide) (by decide)
      (by decide) (by decide)⟩

/-- C6: when no value is shared by all contributing configurations of an
architecture, the merge stores an empty common list under the wildcard key,
leaves every contributing configuration's list for the key equal to its
original list, and rewrites no pre-existing store entry of that architecture:
provided aliased map entries point at keys outside the store, every concrete
key of the architecture already present in the store keeps its exact record. -/
theorem C6_no_common_values (init_record : ConfigKey → SettingsRecord)
    (key : String) (ctx ctx' : Context) (a : String)
    (hwfs : Dict.WF ctx.settings)
    (hwfm : Dict.WF ctx.sln_configurations_map)
    (hwild : ∀ e ∈ ctx.sln_configurations_map, e.1.1 = none → e.2.1 = none)
    (halias : ∀ e ∈ ctx.sln_configurations_map, e.1 ≠ e.2 →
        Dict.contains ctx.settings e.1 = false)
    (hrun : DataConverter.merge_data_settings init_record [key] ctx = some ctx')
    (hane : contribList ctx.settings key a ctx.sln_configurations_map ≠ [])
    (hnocommon : ∀ v : String,
        ¬ ∀ q ∈ contribList ctx.settings key a ctx.sln_configurations_map, v ∈ q.2) :
    (∃ r, Dict.find? ctx'.settings ((none, some a) : ConfigKey) = some r
      ∧ Dict.find? r.lists key = some [])
    ∧ (∀ q ∈ contribList ctx.settings key a ctx.sln_configurations_map,
        ∃ r', Dict.find? ctx'.settings q.1 = some r'
          ∧ Dict.find? r'.lists key = some q.2)
    ∧ (∀ c : ConfigKey, c.1.isSome = true → c.2 = some a →
        Dict.contains ctx.settings c = true →
        Dict.find? ctx'.settings c = Dict.find? ctx.settings c) := by
  obtain ⟨hframe, hmain⟩ := merge_key_main init_record key ctx ctx' hwfs hwfm hwild hrun
  obtain ⟨s, common, hSnd, hSmem, hceq, hcnd, hcmem, hcover, hwentry, hres⟩ :=
    hmain a hane
  have hs_nil : s = [] := by
    refine List.eq_nil_iff_forall_not_mem.mpr ?_
    intro v hv
    exact hnocommon v ((hSmem v).mp hv)
  subst hs_nil
  rw [filterCommon_empty_set] at hceq
  subst hceq
  refine ⟨hwentry, ?_, ?_⟩
  · intro q hq
    obtain ⟨r', hr'1, hr'2, -⟩ := hres q hq
    refine ⟨r', hr'1, ?_⟩
    rw [hr'2]
    simp
  · intro c hcsome hcarch hccont
    by_cases hck : c ∈ contributorKeys ctx.settings key ctx.sln_configurations_map
    · obtain ⟨a', l, hc2, hmem0⟩ := mem_contributorKeys_contrib ctx.settings key
        ctx.sln_configurations_map c hck
      rw [hcarch] at hc2
      injection hc2 with hc2
      subst hc2
      obtain ⟨r', hr'1, hr'2, hr'3⟩ := hres (c, l) hmem0
      have hrc : Dict.find? ctx'.settings c = some r' := hr'1
      rcases (Dict.contains_iff ctx.settings c).mp hccont with ⟨rr, hrr⟩
      obtain ⟨e, he, hefst, -, -, r, hr, hrk⟩ := contribList_exists_entry ctx.settings
        key a ctx.sln_configurations_map (c, l) hmem0
      have hefst' : e.1 = c := hefst
      have hee : e.1 = e.2 := by
        by_contra hne
        have hcf := halias e he hne
        rw [hefst'] at hcf
        rw [hcf] at hccont
        simp at hccont
      have hfr : Dict.find? ctx.settings c = some r := by
        rw [← hefst', hee]
        exact hr
      rw [hrr] at hfr
      injection hfr with hfr
      subst hfr
      have hr'eq := hr'3 rr hrr
      simp only [Bool.not_eq_true'] at hr'eq
      simp at hr'eq
      rw [Dict.insert_eq_self rr.lists key l hrk] at hr'eq
      rw [hrc, hrr, hr'eq]
    · rw [hframe c hcsome hck]

/-- The C6 theorem evaluated on the spec's no-common-element scenario. -/
theorem C6_no_common_values_witness :
    DataConverter.merge_data_settings baseline_init ["cl"] no_common_ctx
        = some no_common_merged_ctx
    ∧ (∃ r, Dict.find? no_common_merged_ctx.settings
          ((none, some "x64") : ConfigKey) = some r
        ∧ Dict.find? r.lists "cl" = some [])
    ∧ (∀ q ∈ contribList no_common_ctx.settings "cl" "x64"
          no_common_ctx.sln_configurations_map,
        ∃ r', Dict.find? no_common_merged_ctx.settings q.1 = some r'
          ∧ Dict.find? r'.lists "cl" = some q.2)
    ∧ (∀ c : ConfigKey, c.1.isSome = true → c.2 = some "x64" →
        Dict.contains no_common_ctx.settings c = true →
        Dict.find? no_common_merged_ctx.settings c
          = Dict.find? no_common_ctx.settings c) :=
  ⟨by decide,
    C6_no_common_values baseline_init "cl" no_common_ctx no_common_merged_ctx "x64"
      (by unfold Dict.WF ; decide) (by unfold Dict.WF ; decide) (by decide) (by decide)
      (by decide) (by decide)
      (by
        intro v h
        have h1 := h ((some "debug", some "x64"), ["A1", "A2"]) (by decide)
        have h2 := h ((some "release", some "x64"), ["B1"]) (by decide)
        simp at h1 h2
        rcases h1 with h1 | h1
        · rw [h1] at h2
          exact absurd h2 (by decide)
        · rw [h1] at h2
          exact absurd h2 (by decide))⟩

/-- C10: when a common value occurs more than once in a contributing
configuration's original list, after the merge the wildcard common list holds
it exactly once while the residual rewrite removes every occurrence of it from
that configuration's list, so the total multiplicity drops: multiplicities of
common values are not preserved, only set-level recombination holds. -/
theorem C10_multiplicity_not_preserved (init_record : ConfigKey → SettingsRecord)
    (key : String) (ctx ctx' : Context) (a : String) (v : String)
    (q : ConfigKey × List String)
    (hwfs : Dict.WF ctx.settings)
    (hwfm : Dict.WF ctx.sln_configurations_map)
    (hwild : ∀ e ∈ ctx.sln_configurations_map, e.1.1 = none → e.2.1 = none)
    (hrun : DataConverter.merge_data_settings init_record [key] ctx = some ctx')
    (hq : q ∈ contribList ctx.settings key a ctx.sln_configurations_map)
    (hv : ∀ q' ∈ contribList ctx.settings key a ctx.sln_configurations_map, v ∈ q'.2)
    (hcount : 2 ≤ q.2.count v) :
    ∃ common residual : List String,
      (∃ r, Dict.find? ctx'.settings ((none, some a) : ConfigKey) = some r
        ∧ Dict.find? r.lists key = some common)
      ∧ (∃ r', Dict.find? ctx'.settings q.1 = some r'
          ∧ Dict.find? r'.lists key = some residual)
      ∧ common.count v = 1
      ∧ residual.count v = 0
      ∧ residual.count v + common.count v < q.2.count v := by
  have hane : contribList ctx.settings key a ctx.sln_configurations_map ≠ [] :=
    List.ne_nil_of_mem hq
  obtain ⟨-, hmain⟩ := merge_key_main init_record key ctx ctx' hwfs hwfm hwild hrun
  obtain ⟨s, common, hSnd, hSmem, hceq, hcnd, hcmem, hcover, hwentry, hres⟩ :=
    hmain a hane
  have hvS : v ∈ s := (hSmem v).mpr hv
  have hvc := hcover v hvS
  obtain ⟨r', hr'1, hr'2, -⟩ := hres q hq
  refine ⟨common, q.2.filter (fun x => !(x ∈ s : Bool)), hwentry,
    ⟨r', hr'1, hr'2⟩, ?_, ?_, ?_⟩
  · rw [hceq, count_filterCommon _ _ hSnd v, if_pos ⟨hvS, hvc⟩]
  · refine List.count_eq_zero.mpr ?_
    intro hmem
    have hpred := (List.mem_filter.mp hmem).2
    rw [Bool.not_eq_true', decide_eq_false_iff_not] at hpred
    exact hpred hvS
  · have h1 : common.count v = 1 := by
      rw [hceq, count_filterCommon _ _ hSnd v, if_pos ⟨hvS, hvc⟩]
    have h0 : (q.2.filter (fun x => !(x ∈ s : Bool))).count v = 0 := by
      refine List.count_eq_zero.mpr ?_
      intro hmem
      have hpred := (List.mem_filter.mp hmem).2
      rw [Bool.not_eq_true', decide_eq_false_iff_not] at hpred
      exact hpred hvS
    rw [h1, h0]
    omega

/-- The C10 theorem evaluated on the duplicated-value scenario: the first
configuration holds `D` twice, the common list holds it once, the residual
holds it zero times. -/
theorem C10_multiplicity_not_preserved_witness :
    DataConverter.merge_data_settings baseline_init ["cl"] dup_value_ctx
        = some dup_value_merged_ctx
    ∧ (((some "debug", some "x64") : ConfigKey), ["D", "D", "E"])
        ∈ contribList dup_value_ctx.settings "cl" "x64"
            dup_value_ctx.sln_configurations_map
    ∧ ∃ common residual : List String,
        (∃ r, Dict.find? dup_value_merged_ctx.settings
              ((none, some "x64") : ConfigKey) = some r
          ∧ Dict.find? r.lists "cl" = some common)
        ∧ (∃ r', Dict.find? dup_value_merged_ctx.settings
              ((some "debug", some "x64") : ConfigKey) = some r'
            ∧ Dict.find? r'.lists "cl" = some residual)
        ∧ common.count "D" = 1
        ∧ residual.count "D" = 0
        ∧ residual.count "D" + common.count "D" < (["D", "D", "E"] : List String).count "D" :=
  ⟨by decide, by decide,
    C10_multiplicity_not_preserved baseline_init "cl" dup_value_ctx
      dup_value_merged_ctx "x64" "D" (((some "debug", some "x64") : ConfigKey), ["D", "D", "E"])
      (by unfold Dict.WF ; decide) (by unfold Dict.WF ; decide) (by decide) (by decide)
      (by decide) (by decide) (by decide)⟩

/-- Congruence of an `Option`-valued fold over contexts: if every step's result,
viewed through `settingsAndMap`, depends only on the incoming settings store and
configuration map, then so does the whole fold's. -/
theorem foldlM_sm_congr {γ : Type} (f : Context → γ → Option Context)
    (hf : ∀ (x : γ) (c₁ c₂ : Context), c₁.settings = c₂.settings →
        c₁.sln_configurations_map = c₂.sln_configurations_map →
        Option.map settingsAndMap (f c₁ x) = Option.map settingsAndMap (f c₂ x))
    (l : List γ) :
    ∀ c₁ c₂ : Context, c₁.settings = c₂.settings →
      c₁.sln_configurations_map = c₂.sln_configurations_map →
      Option.map settingsAndMap (List.foldlM f c₁ l)
        = Option.map settingsAndMap (List.foldlM f c₂ l) := by
  induction l with
  | nil =>
    intro c₁ c₂ hs hm
    simp [List.foldlM_nil, settingsAndMap, hs, hm]
  | cons x t ih =>
    intro c₁ c₂ hs hm
    rw [List.foldlM_cons, List.foldlM_cons]
    have hx := hf x c₁ c₂ hs hm
    cases h₁ : f c₁ x with
    | none =>
      cases h₂ : f c₂ x with
      | none => rfl
      | some d₂ =>
        rw [h₁, h₂] at hx
        simp at hx
    | some d₁ =>
      cases h₂ : f c₂ x with
      | none =>
        rw [h₁, h₂] at hx
        simp at hx
      | some d₂ =>
        rw [h₁, h₂] at hx
        simp only [Option.map_some'] at hx
        injection hx with hx
        simp only [Option.bind_eq_bind, Option.some_bind]
        exact ih d₁ d₂ (congrArg Prod.fst hx) (congrArg Prod.snd hx)

/-- `ensure_wildcard_record` reads and writes only the settings store (besides
`current_setting`), so its result through `settingsAndMap` depends only on the
input's settings store and configuration map. -/
theorem ensure_wildcard_record_congr (init_record : ConfigKey → SettingsRecord)
    (c₁ c₂ : Context) (ma : Option String)
    (h : settingsAndMap c₁ = settingsAndMap c₂) :
    settingsAndMap (DataConverter.ensure_wildcard_record init_record c₁ ma)
      = settingsAndMap (DataConverter.ensure_wildcard_record init_record c₂ ma) := by
  have hs : c₁.settings = c₂.settings := congrArg Prod.fst h
  have hm : c₁.sln_configurations_map = c₂.sln_configurations_map := congrArg Prod.snd h
  simp only [DataConverter.ensure_wildcard_record]
  rw [hs]
  by_cases hc : Dict.contains c₂.settings (none, ma) = true
  · rw [if_pos hc, if_pos hc]
    exact h
  · rw [if_neg hc, if_neg hc]
    simp [settingsAndMap, hm]

/-- `update_settings_at_context` reads and writes only the settings store and
the configuration map, so its result through `settingsAndMap` depends only on
the input's settings store and configuration map. -/
theorem update_settings_congr (c₁ c₂ : Context) (sln : ConfigKey) (key : String)
    (v : List String)
    (hs : c₁.settings = c₂.settings)
    (hm : c₁.sln_configurations_map = c₂.sln_configurations_map) :
    Option.map settingsAndMap (DataConverter.update_settings_at_context c₁ sln key v)
      = Option.map settingsAndMap
          (DataConverter.update_settings_at_context c₂ sln key v) := by
  simp only [DataConverter.update_settings_at_context, Option.bind_eq_bind]
  rw [hs, hm]
  by_cases hc : Dict.contains c₂.settings sln = true
  · rw [if_pos hc, if_pos hc]
    simp only [Option.some_bind]
    rw [hs, hm]
    cases hfr : Dict.find? c₂.settings sln with
    | none => rfl
    | some r =>
      simp only [Option.some_bind, Option.map_some']
      simp [settingsAndMap]
  · rw [if_neg hc, if_neg hc]
    cases hmf : Dict.find? c₂.sln_configurations_map sln with
    | none => rfl
    | some mapped =>
      simp only [Option.some_bind]
      cases hrf : Dict.find? c₂.settings mapped with
      | none => rfl
      | some r0 =>
        simp only [Option.some_bind]
        rw [Dict.find?_insert_self]
        simp only [Option.some_bind, Option.map_some']
        simp [settingsAndMap, hm]

/-- One step of the intersection pass, run from two states with equal local
dictionaries and `settingsAndMap`-equal contexts: both runs fail together or
succeed together, with equal local dictionaries and `settingsAndMap`-equal
contexts again. -/
theorem intersectionStep_congr (init_record : ConfigKey → SettingsRecord)
    (key : String) (st₁ st₂ : DataConverter.MergePassState) (e : ConfigKey × ConfigKey)
    (hc : settingsAndMap st₁.ctx = settingsAndMap st₂.ctx)
    (hl : st₁.lists_of_items_to_merge = st₂.lists_of_items_to_merge)
    (hst : st₁.set_of_items = st₂.set_of_items) :
    (DataConverter.intersectionStep init_record key st₁ e = none
      ∧ DataConverter.intersectionStep init_record key st₂ e = none)
    ∨ ∃ u₁ u₂, DataConverter.intersectionStep init_record key st₁ e = some u₁
        ∧ DataConverter.intersectionStep init_record key st₂ e = some u₂
        ∧ settingsAndMap u₁.ctx = settingsAndMap u₂.ctx
        ∧ u₁.lists_of_items_to_merge = u₂.lists_of_items_to_merge
        ∧ u₁.set_of_items = u₂.set_of_items := by
  have hcc := ensure_wildcard_record_congr init_record st₁.ctx st₂.ctx e.1.2 hc
  have hcs : (DataConverter.ensure_wildcard_record init_record st₁.ctx e.1.2).settings
      = (DataConverter.ensure_wildcard_record init_record st₂.ctx e.1.2).settings :=
    congrArg Prod.fst hcc
  simp only [DataConverter.intersectionStep]
  rw [hl, hst, hcs]
  cases hf1 : Dict.find?
      (DataConverter.ensure_wildcard_record init_record st₂.ctx e.1.2).settings e.2 with
  | none => exact Or.inl ⟨rfl, rfl⟩
  | some record =>
    simp only []
    cases hf2 : Dict.find? record.lists key with
    | none =>
      simp only []
      exact Or.inr ⟨_, _, rfl, rfl, hcc, rfl, rfl⟩
    | some settings_list =>
      simp only []
      cases hm1 : e.2.1 with
      | none =>
        simp only []
        exact Or.inr ⟨_, _, rfl, rfl, hcc, rfl, rfl⟩
      | some cname =>
        simp only []
        cases harch : e.1.2 with
        | none => exact Or.inl ⟨rfl, rfl⟩
        | some a =>
          rw [harch] at hcc
          simp only []
          cases hf3 : Dict.find?
              (if (match Dict.find?
                    (DataConverter.ensure_arch_entry st₂.lists_of_items_to_merge
                      (some a)) a with
                  | some d => d
                  | none => []).isEmpty then
                Dict.insert st₂.set_of_items a settings_list.dedup
              else st₂.set_of_items) a with
          | none => exact Or.inl ⟨rfl, rfl⟩
          | some s =>
            simp only []
            exact Or.inr ⟨_, _, rfl, rfl, hcc, rfl, rfl⟩

/-- The whole intersection pass, run from two states with equal local
dictionaries and `settingsAndMap`-equal contexts, fails together or succeeds
together with related results. -/
theorem pass_fold_congr (init_record : ConfigKey → SettingsRecord) (key : String)
    (entries : List (ConfigKey × ConfigKey)) :
    ∀ st₁ st₂ : DataConverter.MergePassState,
      settingsAndMap st₁.ctx = settingsAndMap st₂.ctx →
      st₁.lists_of_items_to_merge = st₂.lists_of_items_to_merge →
      st₁.set_of_items = st₂.set_of_items →
      (List.foldlM (DataConverter.intersectionStep init_record key) st₁ entries = none
        ∧ List.foldlM (DataConverter.intersectionStep init_record key) st₂ entries
            = none)
      ∨ ∃ r₁ r₂,
          List.foldlM (DataConverter.intersectionStep init_record key) st₁ entries
              = some r₁
          ∧ List.foldlM (DataConverter.intersectionStep init_record key) st₂ entries
              = some r₂
          ∧ settingsAndMap r₁.ctx = settingsAndMap r₂.ctx
          ∧ r₁.lists_of_items_to_merge = r₂.lists_of_items_to_merge
          ∧ r₁.set_of_items = r₂.set_of_items := by
  induction entries with
  | nil =>
    intro st₁ st₂ hc hl hst
    exact Or.inr ⟨st₁, st₂, rfl, rfl, hc, hl, hst⟩
  | cons e t ih =>
    intro st₁ st₂ hc hl hst
    rw [List.foldlM_cons, List.foldlM_cons]
    rcases intersectionStep_congr init_record key st₁ st₂ e hc hl hst with
      ⟨h1, h2⟩ | ⟨u₁, u₂, h1, h2, hc', hl', hst'⟩
    · rw [h1, h2]
      exact Or.inl ⟨rfl, rfl⟩
    · rw [h1, h2]
      simp only [Option.bind_eq_bind, Option.some_bind]
      exact ih u₁ u₂ hc' hl' hst'

/-- `remove_common_settings_from_context` reads and writes the context only
through `update_settings_at_context`, so its result through `settingsAndMap`
depends only on the input's settings store and configuration map. -/
theorem remove_common_congr (lists : Dict String (Dict ConfigKey (List String)))
    (sets : Dict String (List String)) (key : String) (c₁ c₂ : Context)
    (hs : c₁.settings = c₂.settings)
    (hm : c₁.sln_configurations_map = c₂.sln_configurations_map) :
    Option.map settingsAndMap
        (DataConverter.remove_common_settings_from_context c₁ lists sets key)
      = Option.map settingsAndMap
          (DataConverter.remove_common_settings_from_context c₂ lists sets key) := by
  simp only [DataConverter.remove_common_settings_from_context]
  refine foldlM_sm_congr _ ?_ lists c₁ c₂ hs hm
  intro p d₁ d₂ hds hdm
  refine foldlM_sm_congr _ ?_ p.2 d₁ d₂ hds hdm
  intro q e₁ e₂ hes hem
  simp only [Option.bind_eq_bind]
  cases hfs : Dict.find? sets p.1 with
  | none => rfl
  | some s =>
    simp only [Option.some_bind]
    exact update_settings_congr e₁ e₂ q.1 key _ hes hem

/-- The final commit loop reads and writes only the settings store and the
configuration map, so its result through `settingsAndMap` depends only on the
input's settings store and configuration map. -/
theorem commit_merged_congr (key : String) (merged : Dict String (List String))
    (c₁ c₂ : Context)
    (hs : c₁.settings = c₂.settings)
    (hm : c₁.sln_configurations_map = c₂.sln_configurations_map) :
    Option.map settingsAndMap (DataConverter.commit_merged_settings c₁ merged key)
      = Option.map settingsAndMap (DataConverter.commit_merged_settings c₂ merged key)
    := by
  simp only [DataConverter.commit_merged_settings]
  refine foldlM_sm_congr _ ?_ merged c₁ c₂ hs hm
  intro p d₁ d₂ hds hdm
  simp only [Option.bind_eq_bind]
  rw [hds, hdm]
  cases hfr : Dict.find? d₂.settings (none, some p.1) with
  | none => rfl
  | some r =>
    simp only [Option.some_bind, Option.map_some']
    simp [settingsAndMap]

/-- The per-key merge, through `settingsAndMap`, depends only on the input's
settings store and configuration map. -/
theorem merge_key_congr (init_record : ConfigKey → SettingsRecord) (key : String)
    (c₁ c₂ : Context)
    (hs : c₁.settings = c₂.settings)
    (hm : c₁.sln_configurations_map = c₂.sln_configurations_map) :
    Option.map settingsAndMap (DataConverter.merge_key init_record c₁ key)
      = Option.map settingsAndMap (DataConverter.merge_key init_record c₂ key) := by
  simp only [DataConverter.merge_key, Option.bind_eq_bind]
  rw [hm]
  have hstart : settingsAndMap
      (({ ctx := c₁, lists_of_items_to_merge := [], set_of_items := [] }
        : DataConverter.MergePassState).ctx)
      = settingsAndMap
        (({ ctx := c₂, lists_of_items_to_merge := [], set_of_items := [] }
          : DataConverter.MergePassState).ctx) := by
    simp [settingsAndMap, hs, hm]
  rcases pass_fold_congr init_record key c₂.sln_configurations_map
      ⟨c₁, [], []⟩ ⟨c₂, [], []⟩ hstart rfl rfl with
    ⟨h1, h2⟩ | ⟨r₁, r₂, h1, h2, hc', hl', hst'⟩
  · rw [h1, h2]
  · rw [h1, h2]
    simp only [Option.some_bind]
    rw [hl', hst']
    have hrem := remove_common_congr r₂.lists_of_items_to_merge r₂.set_of_items key
      r₁.ctx r₂.ctx (congrArg Prod.fst hc') (congrArg Prod.snd hc')
    cases hrm₁ : DataConverter.remove_common_settings_from_context r₁.ctx
        r₂.lists_of_items_to_merge r₂.set_of_items key with
    | none =>
      cases hrm₂ : DataConverter.remove_common_settings_from_context r₂.ctx
          r₂.lists_of_items_to_merge r₂.set_of_items key with
      | none => rfl
      | some d₂ =>
        rw [hrm₁, hrm₂] at hrem
        simp at hrem
    | some d₁ =>
      cases hrm₂ : DataConverter.remove_common_settings_from_context r₂.ctx
          r₂.lists_of_items_to_merge r₂.set_of_items key with
      | none =>
        rw [hrm₁, hrm₂] at hrem
        simp at hrem
      | some d₂ =>
        rw [hrm₁, hrm₂] at hrem
        simp only [Option.map_some'] at hrem
        injection hrem with hrem
        simp only [Option.some_bind]
        cases hg : DataConverter.get_common_ordered_settings
            (DataConverter.get_order_of_common_settings r₂.lists_of_items_to_merge)
            r₂.set_of_items with
        | none => rfl
        | some merged =>
          simp only [Option.some_bind]
          exact commit_merged_congr key merged d₁ d₂
            (congrArg Prod.fst hrem) (congrArg Prod.snd hrem)

/-- C4: `merge_data_settings` is deterministic — its result, projected to the
settings store and configuration map it reads and writes, is a function of the
input settings store and configuration map alone (both explicitly ordered
association lists, so equal inputs mean equal insertion orders): two runs on
equal inputs produce equal merged common lists and equal residual lists, with
no dependence on any other state. -/
theorem C4_determinism (init_record : ConfigKey → SettingsRecord)
    (keys : List String) (ctx₁ ctx₂ : Context)
    (hs : ctx₁.settings = ctx₂.settings)
    (hm : ctx₁.sln_configurations_map = ctx₂.sln_configurations_map) :
    Option.map settingsAndMap (DataConverter.merge_data_settings init_record keys ctx₁)
      = Option.map settingsAndMap
          (DataConverter.merge_data_settings init_record keys ctx₂) := by
  simp only [DataConverter.merge_data_settings]
  refine foldlM_sm_congr _ ?_ keys ctx₁ ctx₂ hs hm
  intro k c₁ c₂ hks hkm
  exact merge_key_congr init_record k c₁ c₂ hks hkm

/-- The C4 theorem evaluated on the two-configuration scenario against a copy
of it that differs in the fields the merge does not read. -/
theorem C4_determinism_witness :
    Option.map settingsAndMap
        (DataConverter.merge_data_settings baseline_init ["cl"] two_config_ctx)
      = Option.map settingsAndMap
          (DataConverter.merge_data_settings baseline_init ["cl"]
            { two_config_ctx with vcxproj_path := "other.vcxproj", current_setting := (some "debug", some "x64") }) :=
  C4_determinism baseline_init ["cl"] two_config_ctx
    { two_config_ctx with vcxproj_path := "other.vcxproj", current_setting := (some "debug", some "x64") }
    (by decide) (by decide)
